import Mathlib

/-!
Verification development for the document ingestion / structural parsing /
document diffing core of the legal-intelligence-platform repository.

Texts are modelled as lists of Unicode code points (`Text := List Nat`),
byte strings as lists of naturals below 256.  Python dictionaries with
dynamic keys are modelled as association lists; dictionaries with a fixed
key set (the extraction-result dictionary) are modelled as structures.
The external PDF / DOCX libraries (pdfplumber, PyPDF2, python-docx) are
modelled as oracle values describing the outcome of each library call;
everything written in the repository itself is translated directly.
-/

namespace LegalDoc

/-- Text is modelled as a list of Unicode code points. -/
abbrev Text := List Nat

/-- Code-point list of a Lean string literal (used to embed Python string
literals from the source). -/
def lit (s : String) : Text := s.data.map Char.toNat

/-- ASCII whitespace recognised by Python's `str.strip`, `str.split` and the
regex class `\s` (space, tab, newline, carriage return, vertical tab, form
feed).  The model is restricted to ASCII whitespace. -/
def isSpace (c : Nat) : Bool := c == 32 || c == 9 || c == 10 || c == 13 || c == 11 || c == 12

/-- Python `str.strip()` on a single line: drop whitespace from both ends. -/
def stripText (l : Text) : Text :=
  ((l.dropWhile isSpace).reverse.dropWhile isSpace).reverse

/-- ASCII lower-casing of one code point (Python `str.lower`, restricted to
ASCII letters, which is all the extension comparison needs). -/
def lowerChar (c : Nat) : Nat := if 65 ≤ c ∧ c ≤ 90 then c + 32 else c

/-- Python `str.split(sep)` semantics for a one-character separator:
`"".split` gives `[""]`, separators at the ends give empty pieces. -/
def splitOnChar (sep : Nat) : List Nat → List (List Nat)
  | [] => [[]]
  | c :: rest =>
    let r := splitOnChar sep rest
    if c = sep then [] :: r
    else
      match r with
      | h :: t => (c :: h) :: t
      | [] => [[c]]

/-- Values stored in metadata dictionaries: strings, integers, or lists of
strings. -/
inductive MVal where
  | s (v : Text)
  | n (v : Nat)
  | ls (v : List Text)
deriving DecidableEq, Repr

/-- A Python dictionary with string keys, as an association list (keys are
the string literals appearing in the source). -/
abbrev Metadata := List (String × MVal)

/-- Dictionary lookup (first matching key). -/
def dictGet (d : Metadata) (k : String) : Option MVal :=
  (d.find? (fun kv => kv.1 == k)).map (fun kv => kv.2)

/-- Python `d1.update(d2)`: values of colliding keys are overwritten in
place, genuinely new keys are appended in order. -/
def dictUpdate (d1 d2 : Metadata) : Metadata :=
  (d1.map (fun kv =>
    match dictGet d2 kv.1 with
    | some v => (kv.1, v)
    | none => kv)) ++
  d2.filter (fun kv => (dictGet d1 kv.1).isNone)

/-- The dictionary returned by `DocumentExtractor.extract_text` and its
helpers (fixed keys `text`, `metadata`, `extraction_method`, `success`,
`error`). -/
structure ExtractionResult where
  text : Text
  metadata : Metadata
  extraction_method : Text
  success : Bool
  error : Option Text
deriving DecidableEq, Repr

/-! ### Text codecs

`bytes.decode(encoding)` for the four encodings listed in
`_extract_from_txt`.  UTF-8 follows the strict codec: continuation bytes in
`80..BF`, overlong forms, surrogates and code points above `10FFFF`
rejected. -/

/-- UTF-8 encoding of one code point (`str.encode('utf-8')`, per code
point). -/
def utf8EncodeChar (c : Nat) : List Nat :=
  if c < 0x80 then [c]
  else if c < 0x800 then [0xC0 + c / 64, 0x80 + c % 64]
  else if c < 0x10000 then [0xE0 + c / 4096, 0x80 + c / 64 % 64, 0x80 + c % 64]
  else [0xF0 + c / 262144, 0x80 + c / 4096 % 64, 0x80 + c / 64 % 64, 0x80 + c % 64]

/-- UTF-8 encoding of a string. -/
def utf8Encode : Text → List Nat
  | [] => []
  | c :: cs => utf8EncodeChar c ++ utf8Encode cs

/-- A UTF-8 continuation byte. -/
def isCont (b : Nat) : Bool := 0x80 ≤ b && b < 0xC0

/-- One step of strict UTF-8 decoding: given the lead byte and the
remaining bytes, the decoded code point and the number of continuation
bytes consumed, or `none` on an invalid sequence (continuation bytes must
lie in `80..BF`, with the narrowed second-byte ranges that exclude
overlong forms, surrogates and code points above `10FFFF`). -/
def utf8DecodeOne (b0 : Nat) (rest : List Nat) : Option (Nat × Nat) :=
  if b0 < 0x80 then some (b0, 0)
  else if b0 < 0xC2 then none
  else if b0 < 0xE0 then
    match rest with
    | b1 :: _ => if isCont b1 then some ((b0 - 0xC0) * 64 + (b1 - 0x80), 1) else none
    | [] => none
  else if b0 < 0xF0 then
    match rest with
    | b1 :: b2 :: _ =>
      if (if b0 = 0xE0 then 0xA0 ≤ b1 && b1 < 0xC0
          else if b0 = 0xED then 0x80 ≤ b1 && b1 < 0xA0
          else isCont b1) && isCont b2 then
        some ((b0 - 0xE0) * 4096 + (b1 - 0x80) * 64 + (b2 - 0x80), 2)
      else none
    | _ => none
  else if b0 < 0xF5 then
    match rest with
    | b1 :: b2 :: b3 :: _ =>
      if (if b0 = 0xF0 then 0x90 ≤ b1 && b1 < 0xC0
          else if b0 = 0xF4 then 0x80 ≤ b1 && b1 < 0x90
          else isCont b1) && isCont b2 && isCont b3 then
        some ((b0 - 0xF0) * 262144 + (b1 - 0x80) * 4096 + (b2 - 0x80) * 64 + (b3 - 0x80), 3)
      else none
    | _ => none
  else none

/-- Strict UTF-8 decoding (`bytes.decode('utf-8')`): `none` models a
`UnicodeDecodeError`. -/
def utf8Decode : List Nat → Option Text
  | [] => some []
  | b0 :: rest =>
    match utf8DecodeOne b0 rest with
    | some (c, k) => (utf8Decode (rest.drop k)).map (fun t => c :: t)
    | none => none
termination_by l => l.length
decreasing_by simp only [List.length_drop, List.length_cons]; omega

/-- `bytes.decode('latin-1')`: every byte value 0..255 maps to the code
point of the same value, so decoding byte input never fails. -/
def latin1Decode (bs : List Nat) : Option Text := some bs

/-- The Windows-1252 mapping of one byte; bytes `81 8D 8F 90 9D` are
undefined and raise. -/
def cp1252MapByte (b : Nat) : Option Nat :=
  if b < 0x80 ∨ 0xA0 ≤ b then some b
  else if b = 0x80 then some 0x20AC
  else if b = 0x82 then some 0x201A
  else if b = 0x83 then some 0x0192
  else if b = 0x84 then some 0x201E
  else if b = 0x85 then some 0x2026
  else if b = 0x86 then some 0x2020
  else if b = 0x87 then some 0x2021
  else if b = 0x88 then some 0x02C6
  else if b = 0x89 then some 0x2030
  else if b = 0x8A then some 0x0160
  else if b = 0x8B then some 0x2039
  else if b = 0x8C then some 0x0152
  else if b = 0x8E then some 0x017D
  else if b = 0x91 then some 0x2018
  else if b = 0x92 then some 0x2019
  else if b = 0x93 then some 0x201C
  else if b = 0x94 then some 0x201D
  else if b = 0x95 then some 0x2022
  else if b = 0x96 then some 0x2013
  else if b = 0x97 then some 0x2014
  else if b = 0x98 then some 0x02DC
  else if b = 0x99 then some 0x2122
  else if b = 0x9A then some 0x0161
  else if b = 0x9B then some 0x203A
  else if b = 0x9C then some 0x0153
  else if b = 0x9E then some 0x017E
  else if b = 0x9F then some 0x0178
  else none

/-- `bytes.decode('cp1252')`. -/
def cp1252Decode (bs : List Nat) : Option Text := bs.mapM cp1252MapByte

/-- `bytes.decode('iso-8859-1')` is the same total byte-to-code-point map as
latin-1. -/
def iso88591Decode (bs : List Nat) : Option Text := some bs

/-- `encodings_to_try = ['utf-8', 'latin-1', 'cp1252', 'iso-8859-1']` from
`_extract_from_txt`, paired with each encoding's decoder. -/
def encodings_to_try : List (Text × (List Nat → Option Text)) :=
  [(lit "utf-8", utf8Decode), (lit "latin-1", latin1Decode),
   (lit "cp1252", cp1252Decode), (lit "iso-8859-1", iso88591Decode)]

/-- The `for encoding in encodings_to_try: try ... except: continue` loop of
`_extract_from_txt`, including the failure dictionary returned when every
encoding raises. -/
def tryDecodeLoop (content : List Nat) : List (Text × (List Nat → Option Text)) → ExtractionResult
  | [] =>
    { text := [], metadata := [], extraction_method := lit "none", success := false,
      error := some (lit "Unable to decode file with any known encoding") }
  | (name, dec) :: rest =>
    match dec content with
    | some t =>
      { text := t,
        metadata := [("encoding", .s name), ("size_bytes", .n content.length),
                     ("extraction_method", .s (lit "decode"))],
        extraction_method := lit "decode", success := true, error := none }
    | none => tryDecodeLoop content rest

/-- `DocumentExtractor._extract_from_txt`. -/
def extract_from_txt (content : List Nat) : ExtractionResult :=
  tryDecodeLoop content encodings_to_try

/-! ### Filename suffix (`pathlib.Path(filename).suffix.lower()`) -/

/-- `Path(filename).name`: the component after the last `/` (uploaded
filenames are plain names; `pathlib`'s stripping of trailing slashes is not
modelled). -/
def pathName (filename : Text) : Text :=
  (splitOnChar 47 filename).getLastD []

/-- Index of the last occurrence of `c` (Python `str.rfind`). -/
def rfindChar (c : Nat) (l : List Nat) : Option Nat :=
  match l.reverse.findIdx? (fun x => x == c) with
  | some k => some (l.length - 1 - k)
  | none => none

/-- `PurePath.suffix`: `name[i:]` for the last dot index `i` when
`0 < i < len(name) - 1`, otherwise the empty string. -/
def pathSuffix (filename : Text) : Text :=
  let name := pathName filename
  match rfindChar 46 name with
  | some i => if 0 < i ∧ i < name.length - 1 then name.drop i else []
  | none => []

/-- `Path(filename).suffix.lower()` as computed at the top of
`extract_text`. -/
def fileExtOf (filename : Text) : Text := (pathSuffix filename).map lowerChar

/-- `DocumentExtractor.SUPPORTED_EXTENSIONS`. -/
def SUPPORTED_EXTENSIONS : List Text := [lit ".pdf", lit ".docx", lit ".doc", lit ".txt"]

/-! ### External library oracles

`pdfplumber`, `PyPDF2` and `python-docx` are outside the repository, so the
outcome of each library call during one `extract_text` call is an oracle
value; the repository's handling of those outcomes is translated
directly. -/

/-- What `pdfplumber.open` yields: the per-page `page.extract_text()`
results (`none` models a page returning `None`) and `pdf.metadata`
(`none` models a missing/`None` metadata mapping). -/
structure PdfPlumberDoc where
  pages : List (Option Text)
  meta : Option Metadata
deriving Repr

/-- What `PyPDF2.PdfReader` yields: per-page texts and
`pdf_reader.metadata`. -/
structure PyPdf2Doc where
  pages : List (Option Text)
  meta : Option Metadata
deriving Repr

/-- Library outcomes for one PDF extraction: each field is either the
document the library produced or the message of the exception it raised. -/
structure PdfLibOutcome where
  plumber : Except Text PdfPlumberDoc
  pypdf2 : Except Text PyPdf2Doc
deriving Repr

/-- `python-docx` core properties (each `props.x or ''` in the source turns
`None` into the empty string). -/
structure DocxProps where
  title : Option Text
  author : Option Text
  subject : Option Text
  created : Option Text
  modified : Option Text
deriving Repr

/-- What `docx.Document` yields: paragraph texts, tables (rows of cell
texts) and core properties. -/
structure DocxDoc where
  paragraphs : List Text
  tables : List (List (List Text))
  core_properties : DocxProps
deriving Repr

/-- Pull a string value out of a metadata mapping with default `''`
(`mapping.get(key, '')`). -/
def metaGetStr (m : Metadata) (k : String) : MVal :=
  match dictGet m k with
  | some v => v
  | none => .s []

/-- `'\n\n'.join(parts)` over the page/paragraph texts the source keeps:
only truthy (non-empty) texts are collected (`if page_text:`). -/
def joinParts (parts : List (Option Text)) : Text :=
  List.intercalate (lit "\n\n") ((parts.filterMap id).filter (fun t => ¬ t.isEmpty))

/-- The `try` body of `_extract_from_pdf` (pdfplumber attempt): `Except.error`
models the exception path, including the `raise ValueError` on
empty/whitespace-only text. -/
def plumberAttempt (o : Except Text PdfPlumberDoc) : Except Text ExtractionResult :=
  match o with
  | .error e => .error e
  | .ok doc =>
    let full_text := joinParts doc.pages
    let base : Metadata :=
      [("pages", .n doc.pages.length), ("extraction_method", .s (lit "pdfplumber"))]
    let metadata :=
      match doc.meta, doc.pages with
      | some m, _ :: _ =>
        if m.isEmpty then base
        else
          dictUpdate base
            [("title", metaGetStr m "Title"), ("author", metaGetStr m "Author"),
             ("subject", metaGetStr m "Subject"), ("creator", metaGetStr m "Creator")]
      | _, _ => base
    if ¬ (stripText full_text).isEmpty then
      .ok { text := full_text, metadata := metadata,
            extraction_method := lit "pdfplumber", success := true, error := none }
    else .error (lit "No text extracted from PDF")

/-- `DocumentExtractor._extract_from_pdf_pypdf2`; `Except.error` models the
`raise ValueError` on empty text or a library exception. -/
def extract_from_pdf_pypdf2 (o : Except Text PyPdf2Doc) : Except Text ExtractionResult :=
  match o with
  | .error e => .error e
  | .ok doc =>
    let base : Metadata := [("extraction_method", .s (lit "pypdf2")), ("pages", .n doc.pages.length)]
    let metadata :=
      match doc.meta with
      | some m =>
        if m.isEmpty then base
        else
          dictUpdate base
            [("title", metaGetStr m "/Title"), ("author", metaGetStr m "/Author"),
             ("subject", metaGetStr m "/Subject"), ("creator", metaGetStr m "/Creator")]
      | none => base
    let full_text := joinParts doc.pages
    if (stripText full_text).isEmpty then .error (lit "No text extracted using PyPDF2")
    else
      .ok { text := full_text, metadata := metadata,
            extraction_method := lit "pypdf2", success := true, error := none }

/-- `DocumentExtractor._extract_from_pdf`. -/
def extract_from_pdf (o : PdfLibOutcome) (use_fallback : Bool) : ExtractionResult :=
  match plumberAttempt o.plumber with
  | .ok r => r
  | .error e =>
    if use_fallback then
      match extract_from_pdf_pypdf2 o.pypdf2 with
      | .ok r => r
      | .error fe =>
        { text := [], metadata := [], extraction_method := lit "none", success := false,
          error := some (lit "Both extraction methods failed. Primary: " ++ e ++
                         lit ", Fallback: " ++ fe) }
    else
      { text := [], metadata := [], extraction_method := lit "none", success := false,
        error := some e }

/-- `DocumentExtractor._extract_from_docx`. -/
def extract_from_docx (o : Except Text DocxDoc) : ExtractionResult :=
  match o with
  | .error e =>
    { text := [], metadata := [], extraction_method := lit "none", success := false,
      error := some e }
  | .ok doc =>
    let para_parts := doc.paragraphs.filter (fun p => ¬ (stripText p).isEmpty)
    let cell_parts :=
      (doc.tables.map (fun table =>
        (table.map (fun row => row.filter (fun cell => ¬ (stripText cell).isEmpty))).flatten)).flatten
    let full_text := List.intercalate (lit "\n\n") (para_parts ++ cell_parts)
    let base : Metadata :=
      [("paragraphs", .n doc.paragraphs.length), ("tables", .n doc.tables.length),
       ("extraction_method", .s (lit "python-docx"))]
    let props := doc.core_properties
    let metadata :=
      dictUpdate base
        [("title", .s (props.title.getD [])), ("author", .s (props.author.getD [])),
         ("subject", .s (props.subject.getD [])), ("created", .s (props.created.getD [])),
         ("modified", .s (props.modified.getD []))]
    { text := full_text, metadata := metadata,
      extraction_method := lit "python-docx", success := true, error := none }

/-- `DocumentExtractor.extraction_stats`, initialised to zeros in
`__init__`. -/
structure ExtractionStats where
  total_extracted : Nat
  successful : Nat
  failed : Nat
deriving DecidableEq, Repr

/-- External library behaviour for a single `extract_text` call. -/
structure ExtractorEnv where
  pdf : PdfLibOutcome
  docx : Except Text DocxDoc
deriving Repr

/-- `DocumentExtractor.extract_text`, returning the result dictionary and
the updated statistics.  The helpers catch their own exceptions and return
result dictionaries, so the outer `except Exception` branch (which would
also post `failed + 1`/`total_extracted + 1` and a failure dictionary) is
unreachable in this model. -/
def extract_text (env : ExtractorEnv) (file_content : List Nat) (filename : Text)
    (use_fallback : Bool) (stats : ExtractionStats) : ExtractionResult × ExtractionStats :=
  let file_ext := fileExtOf filename
  if file_ext ∉ SUPPORTED_EXTENSIONS then
    ({ text := [], metadata := [], extraction_method := lit "none", success := false,
       error := some (lit "Unsupported file type: " ++ file_ext) },
     { stats with failed := stats.failed + 1, total_extracted := stats.total_extracted + 1 })
  else
    let result :=
      if file_ext = lit ".pdf" then extract_from_pdf env.pdf use_fallback
      else if file_ext = lit ".docx" ∨ file_ext = lit ".doc" then extract_from_docx env.docx
      else if file_ext = lit ".txt" then extract_from_txt file_content
      else
        { text := [], metadata := [], extraction_method := lit "none", success := false,
          error := some (lit "Unhandled file type: " ++ file_ext) }
    let stats1 :=
      if result.success then { stats with successful := stats.successful + 1 }
      else { stats with failed := stats.failed + 1 }
    (result, { stats1 with total_extracted := stats1.total_extracted + 1 })

/-- `DocumentExtractor.get_stats` returns a copy of the counters. -/
def get_stats (stats : ExtractionStats) : ExtractionStats := stats

/-! ### LegalTextParser: data model -/

/-- Character classes used by the parser's regex patterns (ASCII model). -/
def isRomanChar (c : Nat) : Bool := c == 73 || c == 86 || c == 88

/-- ASCII digit. -/
def isDigitChar (c : Nat) : Bool := 48 ≤ c && c ≤ 57

/-- ASCII uppercase letter. -/
def isUpperChar (c : Nat) : Bool := 65 ≤ c && c ≤ 90

/-- ASCII lowercase letter. -/
def isLowerChar (c : Nat) : Bool := 97 ≤ c && c ≤ 122

/-- Regex `\w` (ASCII model). -/
def isWordChar (c : Nat) : Bool := isUpperChar c || isLowerChar c || isDigitChar c || c == 95

/-- `dataclass DocumentSection`. -/
structure DocumentSection where
  section_number : Option Text
  title : Text
  content : Text
  level : Nat
  start_position : Nat
  end_position : Nat
deriving DecidableEq, Repr

/-- `dataclass LegalCitation`. -/
structure LegalCitation where
  text : Text
  citation_type : Text
  position : Nat
deriving DecidableEq, Repr

/-- `dataclass ParsedDocument`. -/
structure ParsedDocument where
  raw_text : Text
  sections : List DocumentSection
  citations : List LegalCitation
  metadata : Metadata
  paragraphs : List Text
deriving DecidableEq, Repr

/-! ### Section header patterns

Each `SECTION_PATTERNS` regex is hand-compiled into a matcher over a single
(already `strip()`ed) line, following the backtracking semantics of
`pattern.match(line_stripped)`; every call site strips its argument first,
and on stripped lines the compiled forms below coincide with the regexes. -/

/-- Pattern 1, `^([IVX]+)\.\s+(.+)$`: groups (numbering, title).  A shorter
Roman prefix is always followed by another Roman character, never by `.`,
so the maximal Roman prefix is the only backtracking candidate; on a
stripped line the final `(.+)` is the non-empty remainder after the maximal
whitespace run. -/
def matchP1 (line : Text) : Option (Text × Text) :=
  let r := line.takeWhile isRomanChar
  match line.dropWhile isRomanChar with
  | 46 :: rest2 =>
    if r.isEmpty then none
    else
      let ws := rest2.takeWhile isSpace
      let title := rest2.dropWhile isSpace
      if ¬ ws.isEmpty ∧ ¬ title.isEmpty then some (r, title) else none
  | _ => none

/-- Pattern 2, `^(\d+)\.\s+(.+)$`. -/
def matchP2 (line : Text) : Option (Text × Text) :=
  let r := line.takeWhile isDigitChar
  match line.dropWhile isDigitChar with
  | 46 :: rest2 =>
    if r.isEmpty then none
    else
      let ws := rest2.takeWhile isSpace
      let title := rest2.dropWhile isSpace
      if ¬ ws.isEmpty ∧ ¬ title.isEmpty then some (r, title) else none
  | _ => none

/-- Pattern 3, `^([A-Z])\.\s+(.+)$`. -/
def matchP3 (line : Text) : Option (Text × Text) :=
  match line with
  | c :: 46 :: rest2 =>
    if isUpperChar c then
      let ws := rest2.takeWhile isSpace
      let title := rest2.dropWhile isSpace
      if ¬ ws.isEmpty ∧ ¬ title.isEmpty then some ([c], title) else none
    else none
  | _ => none

/-- The keyword alternation `(ARTICLE|SECTION|PART)` of pattern 4, tried in
regex order. -/
def matchKeyword (line : Text) : Option (Text × Text) :=
  if (lit "ARTICLE").isPrefixOf line then some (lit "ARTICLE", line.drop 7)
  else if (lit "SECTION").isPrefixOf line then some (lit "SECTION", line.drop 7)
  else if (lit "PART").isPrefixOf line then some (lit "PART", line.drop 4)
  else none

/-- Pattern 4, `^(ARTICLE|SECTION|PART)\s+([IVX\d]+)[:\.]?\s*(.*)$`: groups
(keyword, numbering token, rest).  The trailing `(.*)$` always matches, so
greedy runs need no backtracking here. -/
def matchP4 (line : Text) : Option (Text × Text × Text) :=
  match matchKeyword line with
  | none => none
  | some (kw, rest) =>
    let ws := rest.takeWhile isSpace
    let rest1 := rest.dropWhile isSpace
    let tok := rest1.takeWhile (fun c => isRomanChar c || isDigitChar c)
    let rest2 := rest1.dropWhile (fun c => isRomanChar c || isDigitChar c)
    if ws.isEmpty ∨ tok.isEmpty then none
    else
      let rest3 :=
        match rest2 with
        | 58 :: r => r
        | 46 :: r => r
        | r => r
      some (kw, tok, rest3.dropWhile isSpace)

/-- Pattern 5, `^([A-Z][A-Z\s]{3,})[:\.]?\s*$` (one capture group).  On a
stripped line the regex matches exactly when the maximal `[A-Z\s]` run has
length at least 4 and only `""`, `":"` or `"."` remains after it. -/
def matchP5 (line : Text) : Option Text :=
  match line with
  | c :: _ =>
    if isUpperChar c then
      let run := line.takeWhile (fun x => isUpperChar x || isSpace x)
      let rest := line.dropWhile (fun x => isUpperChar x || isSpace x)
      if 4 ≤ run.length ∧ (rest = [] ∨ rest = [58] ∨ rest = [46]) then some run else none
    else none
  | [] => none

/-- The per-line pattern loop of `_extract_sections` together with its group
handling: patterns with at least two groups yield
`(group(1), group(2))` as `(section_num, title)`; pattern 5 (one group)
yields `(None, line_stripped)`. -/
def matchHeader (line : Text) : Option (Option Text × Text) :=
  match matchP1 line with
  | some (g1, g2) => some (some g1, g2)
  | none =>
  match matchP2 line with
  | some (g1, g2) => some (some g1, g2)
  | none =>
  match matchP3 line with
  | some (g1, g2) => some (some g1, g2)
  | none =>
  match matchP4 line with
  | some (g1, g2, _) => some (some g1, g2)
  | none =>
  match matchP5 line with
  | some _ => some (none, line)
  | none => none

/-- `LegalTextParser._is_section_header` (called on stripped lines). -/
def is_section_header (line : Text) : Bool := (matchHeader line).isSome

/-- Python `str.isupper`: at least one cased character and no lowercase
cased character (ASCII model). -/
def isupperText (l : Text) : Bool :=
  l.any (fun c => isUpperChar c || isLowerChar c) && l.all (fun c => ¬ isLowerChar c)

/-- `LegalTextParser._estimate_section_level`.  The three `re.match(...,
section_num)` tests are full anchored matches; an absent or empty
numbering token (`if section_num:`) falls through to the `isupper`
check. -/
def estimate_section_level (line : Text) (section_num : Option Text) : Nat :=
  match section_num with
  | some num =>
    if ¬ num.isEmpty ∧ num.all isRomanChar then 1
    else if ¬ num.isEmpty ∧ num.all isDigitChar then
      if num.length = 1 then 2 else 3
    else if num.length = 1 ∧ num.all isUpperChar then 3
    else if isupperText line then 1
    else 2
  | none => if isupperText line then 1 else 2

/-- Content collection of `_extract_sections`: up to the next 19 lines,
stopping at the first line that is itself a section header. -/
def sectionContentLines (rest : List Text) : List Text :=
  (rest.take 19).takeWhile (fun l => ¬ is_section_header (stripText l))

/-- The line loop of `_extract_sections`: `pos` is the running
`current_position`, incremented by `len(line) + 1` for every line
(including blank ones). -/
def extract_sections_aux : List Text → Nat → List DocumentSection
  | [], _ => []
  | line :: rest, pos =>
    let ls := stripText line
    if ls.isEmpty then extract_sections_aux rest (pos + line.length + 1)
    else
      match matchHeader ls with
      | some (num, title) =>
        let content_lines := sectionContentLines rest
        { section_number := num, title := title,
          content := List.intercalate (lit "\n") content_lines,
          level := estimate_section_level ls num,
          start_position := pos,
          end_position := pos + (List.intercalate (lit "\n") (line :: content_lines)).length }
        :: extract_sections_aux rest (pos + line.length + 1)
      | none => extract_sections_aux rest (pos + line.length + 1)

/-- `LegalTextParser._extract_sections`. -/
def extract_sections (text : Text) : List DocumentSection :=
  extract_sections_aux (splitOnChar 10 text) 0

/-! ### A small backtracking matcher combinator language

The citation / date / case-number regexes are encoded as combinators.  A
`Matcher` receives the previous character (for `\b`) and the remaining
input, and returns the candidate consumed lengths in backtracking priority
order, greedy first — exactly the order Python's backtracking engine tries
them, so the head of the list at the first matching start position is the
`finditer` match. -/

abbrev Matcher := Option Nat → List Nat → List Nat

/-- Match a single character of a class. -/
def mChar (p : Nat → Bool) : Matcher := fun _ l =>
  match l with
  | c :: _ => if p c then [1] else []
  | [] => []

/-- Sequencing; the previous-character context is threaded through for
`\b`. -/
def mSeq (m1 m2 : Matcher) : Matcher := fun prev l =>
  (m1 prev l).flatMap (fun n1 =>
    let prev2 := if n1 = 0 then prev else some (l.getD (n1 - 1) 0)
    (m2 prev2 (l.drop n1)).map (fun n2 => n1 + n2))

/-- The empty matcher (matches zero characters). -/
def mEps : Matcher := fun _ _ => [0]

/-- Sequence a list of matchers. -/
def mSeqs (ms : List Matcher) : Matcher := ms.foldr mSeq mEps

/-- Ordered alternation. -/
def mAlts (ms : List Matcher) : Matcher := fun prev l => (ms.map (fun m => m prev l)).flatten

/-- Greedy `?`. -/
def mOpt (m : Matcher) : Matcher := fun prev l => m prev l ++ [0]

/-- Greedy `p*` over a character class. -/
def mStarClass (p : Nat → Bool) : Matcher := fun _ l =>
  (List.range ((l.takeWhile p).length + 1)).reverse

/-- Greedy `p+` over a character class. -/
def mPlusClass (p : Nat → Bool) : Matcher := fun _ l =>
  (List.range' 1 (l.takeWhile p).length).reverse

/-- `p{k}` over a character class. -/
def mCount (p : Nat → Bool) (k : Nat) : Matcher := fun _ l =>
  if (l.take k).length = k ∧ (l.take k).all p then [k] else []

/-- Greedy `p{lo,hi}` over a character class. -/
def mRep (p : Nat → Bool) (lo hi : Nat) : Matcher := fun _ l =>
  let r := min (l.takeWhile p).length hi
  if r < lo then [] else (List.range' lo (r - lo + 1)).reverse

/-- A literal string. -/
def mStr (s : Text) : Matcher := fun _ l => if s.isPrefixOf l then [s.length] else []

/-- A literal string under `re.IGNORECASE` (`s` given in lowercase). -/
def mStrCI (s : Text) : Matcher := fun _ l =>
  if (l.take s.length).map lowerChar = s ∧ s.length ≤ l.length then [s.length] else []

/-- The word boundary `\b`. -/
def mBound : Matcher := fun prev l =>
  let before := match prev with | some c => isWordChar c | none => false
  let after := match l with | c :: _ => isWordChar c | [] => false
  if before ≠ after then [0] else []

/-- `pattern.finditer(text)`: scan left to right, at each position take the
backtracking engine's first match; a successful (non-empty) match resumes
after its end.  Returns `(start, length)` pairs. -/
def finditerAux (m : Matcher) : Option Nat → List Nat → Nat → List (Nat × Nat)
  | _, [], _ => []
  | prev, c :: rest, pos =>
    match (m prev (c :: rest)).head? with
    | some len =>
      if h : len = 0 then finditerAux m (some c) rest (pos + 1)
      else
        (pos, len) :: finditerAux m (some ((c :: rest).getD (len - 1) 0))
          ((c :: rest).drop len) (pos + len)
    | none => finditerAux m (some c) rest (pos + 1)
termination_by _ l _ => l.length
decreasing_by
  all_goals simp only [List.length_drop, List.length_cons]; omega

/-- `pattern.finditer(text)` from the start of the text. -/
def reFinditer (m : Matcher) (text : List Nat) : List (Nat × Nat) :=
  finditerAux m none text 0

/-- Python slice `l[i:j]`. -/
def sliceText (l : Text) (i j : Nat) : Text := (l.take j).drop i

/-! ### Citation patterns (`CITATION_PATTERNS`) -/

/-- `\b\d+\s+[A-Z][a-z]*\.?\s*(?:\d+d|3d)?\s+\d+\b` (case citations). -/
def caseCitationM : Matcher :=
  mSeqs [mBound, mPlusClass isDigitChar, mPlusClass isSpace, mChar isUpperChar,
         mStarClass isLowerChar, mOpt (mChar (fun c => c == 46)), mStarClass isSpace,
         mOpt (mAlts [mSeq (mPlusClass isDigitChar) (mChar (fun c => c == 100)),
                      mStr (lit "3d")]),
         mPlusClass isSpace, mPlusClass isDigitChar, mBound]

/-- `\b\d+\s+[A-Z][a-z.]+\s+(?:Code|Stat\.|C\.F\.R\.)\s*§\s*\d+` (state-code
statutes). -/
def statuteCitationM : Matcher :=
  mSeqs [mBound, mPlusClass isDigitChar, mPlusClass isSpace, mChar isUpperChar,
         mPlusClass (fun c => isLowerChar c || c == 46), mPlusClass isSpace,
         mAlts [mStr (lit "Code"), mStr (lit "Stat."), mStr (lit "C.F.R.")],
         mStarClass isSpace, mChar (fun c => c == 0xA7), mStarClass isSpace,
         mPlusClass isDigitChar]

/-- `\b\d+\s+U\.?S\.?C\.?\s*§?\s*\d+` (U.S. Code). -/
def uscCitationM : Matcher :=
  mSeqs [mBound, mPlusClass isDigitChar, mPlusClass isSpace, mChar (fun c => c == 85),
         mOpt (mChar (fun c => c == 46)), mChar (fun c => c == 83),
         mOpt (mChar (fun c => c == 46)), mChar (fun c => c == 67),
         mOpt (mChar (fun c => c == 46)), mStarClass isSpace,
         mOpt (mChar (fun c => c == 0xA7)), mStarClass isSpace, mPlusClass isDigitChar]

/-- `§§?\s*\d+(?:-\d+)?` (bare section references). -/
def sectionCitationM : Matcher :=
  mSeqs [mChar (fun c => c == 0xA7), mOpt (mChar (fun c => c == 0xA7)),
         mStarClass isSpace, mPlusClass isDigitChar,
         mOpt (mSeq (mChar (fun c => c == 45)) (mPlusClass isDigitChar))]

/-- `CITATION_PATTERNS` with their type tags, in source order. -/
def CITATION_PATTERNS : List (Matcher × Text) :=
  [(caseCitationM, lit "case"), (statuteCitationM, lit "statute"),
   (uscCitationM, lit "statute"), (sectionCitationM, lit "section")]

/-- `LegalTextParser._extract_citations`. -/
def extract_citations (text : Text) : List LegalCitation :=
  CITATION_PATTERNS.flatMap (fun mt =>
    (reFinditer mt.1 text).map (fun pl =>
      { text := sliceText text pl.1 (pl.1 + pl.2), citation_type := mt.2, position := pl.1 }))

/-! ### Paragraphs (`re.split(r'\n\s*\n', text)`) -/

/-- One match of `\n\s*\n` at the current position: after the first `\n`,
the greedy `\s*` backtracks to the last newline inside the maximal
whitespace run. -/
def paraBreakM : Matcher := fun _ l =>
  match l with
  | 10 :: rest =>
    let run := rest.takeWhile isSpace
    match rfindChar 10 run with
    | some t => [1 + t + 1]
    | none => []
  | _ => []

/-- Cut the text at the separator matches (`re.split` keeps the pieces
between matches). -/
def cutPieces (text : Text) : List (Nat × Nat) → Nat → List Text
  | [], cur => [text.drop cur]
  | pl :: rest, cur => sliceText text cur pl.1 :: cutPieces text rest (pl.1 + pl.2)

/-- `LegalTextParser._extract_paragraphs`: split on blank-line runs, strip,
keep only fragments longer than 20 characters. -/
def extract_paragraphs (text : Text) : List Text :=
  ((cutPieces text (reFinditer paraBreakM text) 0).map stripText).filter
    (fun p => 20 < p.length)

/-! ### Dates (`DATE_PATTERNS`) -/

/-- The twelve month names of the long date pattern. -/
def monthNames : List Text :=
  [lit "January", lit "February", lit "March", lit "April", lit "May", lit "June",
   lit "July", lit "August", lit "September", lit "October", lit "November", lit "December"]

/-- `\b(?:Month)\s+\d{1,2},?\s+\d{4}\b`. -/
def dateLongM : Matcher :=
  mSeqs [mBound, mAlts (monthNames.map mStr), mPlusClass isSpace, mRep isDigitChar 1 2,
         mOpt (mChar (fun c => c == 44)), mPlusClass isSpace, mCount isDigitChar 4, mBound]

/-- `\b\d{1,2}/\d{1,2}/\d{4}\b`. -/
def dateSlashM : Matcher :=
  mSeqs [mBound, mRep isDigitChar 1 2, mChar (fun c => c == 47), mRep isDigitChar 1 2,
         mChar (fun c => c == 47), mCount isDigitChar 4, mBound]

/-- `\b\d{4}-\d{2}-\d{2}\b`. -/
def dateIsoM : Matcher :=
  mSeqs [mBound, mCount isDigitChar 4, mChar (fun c => c == 45), mCount isDigitChar 2,
         mChar (fun c => c == 45), mCount isDigitChar 2, mBound]

/-- `DATE_PATTERNS` in source order. -/
def DATE_PATTERNS : List Matcher := [dateLongM, dateSlashM, dateIsoM]

/-- `list(set(xs))`: duplicates removed.  CPython's set iteration order is
unspecified; the model keeps first occurrences in insertion order. -/
def dedupKeepFirst (l : List Text) : List Text :=
  l.foldl (fun acc x => if x ∈ acc then acc else acc ++ [x]) []

/-- `LegalTextParser._extract_dates` (`findall` of each pattern returns the
full match texts, no capture groups). -/
def extract_dates (text : Text) : List Text :=
  dedupKeepFirst (DATE_PATTERNS.flatMap (fun m =>
    (reFinditer m text).map (fun pl => sliceText text pl.1 (pl.1 + pl.2))))

/-! ### Case numbers (`CASE_NUMBER_PATTERNS`, `re.IGNORECASE`) -/

/-- The class `[A-Z0-9-:]` under `re.IGNORECASE`. -/
def isCaseNumChar (c : Nat) : Bool :=
  isUpperChar c || isLowerChar c || isDigitChar c || c == 45 || c == 58

/-- First case-insensitive literal of an alternation that matches a prefix
of `l` (literals given in lowercase), returning its length. -/
def ciAlt (alts : List Text) (l : List Nat) : Option Nat :=
  match alts with
  | [] => none
  | s :: rest =>
    if (l.take s.length).map lowerChar = s ∧ s.length ≤ l.length then some s.length
    else ciAlt rest l

/-- One match of
`(?:Case|Docket|Civil|Criminal)\s+(?:No\.|Number|#)\s*[:\s]*([A-Z0-9-:]+)`
at the current position, returning `(length, group(1))`.  The greedy
`\s*[:\s]*` run backtracks only when no class character follows it, in
which case the group can still take a trailing run of colons from the
skipped run. -/
def caseNoMatch (l : List Nat) : Option (Nat × Text) :=
  match ciAlt [lit "case", lit "docket", lit "civil", lit "criminal"] l with
  | none => none
  | some n1 =>
    let l1 := l.drop n1
    let ws := l1.takeWhile isSpace
    if ws.isEmpty then none
    else
      let l2 := l1.dropWhile isSpace
      match ciAlt [lit "no.", lit "number", lit "#"] l2 with
      | none => none
      | some n2 =>
        let l3 := l2.drop n2
        let skip := l3.takeWhile (fun c => isSpace c || c == 58)
        let l4 := l3.dropWhile (fun c => isSpace c || c == 58)
        match l4.takeWhile isCaseNumChar with
        | [] =>
          let colons := (skip.reverse.takeWhile (fun c => c == 58)).reverse
          if colons.isEmpty then none
          else some (n1 + ws.length + n2 + skip.length, colons)
        | grp => some (n1 + ws.length + n2 + skip.length + grp.length, grp)

/-- `findall` of the first case-number pattern: collects `group(1)` of each
non-overlapping match. -/
def findCaseNos : List Nat → List Text
  | [] => []
  | c :: rest =>
    match caseNoMatch (c :: rest) with
    | some (len, grp) => grp :: findCaseNos ((c :: rest).drop (max len 1))
    | none => findCaseNos rest
termination_by l => l.length
decreasing_by
  all_goals simp only [List.length_drop, List.length_cons]; omega

/-- `\b\d{1,2}:\d{2}-(?:cv|cr)-\d{5}\b` (federal case numbers;
`re.IGNORECASE` applies to `cv|cr`). -/
def fedCaseM : Matcher :=
  mSeqs [mBound, mRep isDigitChar 1 2, mChar (fun c => c == 58), mCount isDigitChar 2,
         mChar (fun c => c == 45), mAlts [mStrCI (lit "cv"), mStrCI (lit "cr")],
         mChar (fun c => c == 45), mCount isDigitChar 5, mBound]

/-- `LegalTextParser._extract_case_numbers`: `findall` of each pattern in
source order (the first returns its capture group, the second the full
match), then `list(set(...))`. -/
def extract_case_numbers (text : Text) : List Text :=
  dedupKeepFirst (findCaseNos text ++
    (reFinditer fedCaseM text).map (fun pl => sliceText text pl.1 (pl.1 + pl.2)))

/-! ### Parties (`_extract_parties`) -/

/-- Greedy continuation `(?:\s+[A-Z][a-z]+)*` of a party name; since the
pattern text following the star (`\s+v\.` or pattern end) can never
overlap a star iteration, the greedy run needs no backtracking. -/
def nameExtend : List Nat → Nat → Nat
  | l, acc =>
    let ws := l.takeWhile isSpace
    if h : ws.isEmpty then acc
    else
      match h2 : l.drop ws.length with
      | c :: rest2 =>
        if isUpperChar c then
          let lows := rest2.takeWhile isLowerChar
          if lows.isEmpty then acc
          else nameExtend (rest2.drop lows.length) (acc + ws.length + 1 + lows.length)
        else acc
      | [] => acc
termination_by l _ => l.length
decreasing_by
  have hws : 0 < ws.length := by
    cases hw : ws with
    | nil => simp [hw] at h
    | cons a b => simp [hw]
  have hdrop : (l.drop ws.length).length = l.length - ws.length := List.length_drop ..
  have hlen : ws.length ≤ l.length := by
    simpa using List.Sublist.length_le (List.takeWhile_sublist (l := l) (p := isSpace))
  simp only [h2, List.length_cons] at hdrop
  have := List.length_drop (lows.length) rest2
  simp only [List.length_drop]
  omega

/-- `([A-Z][a-z]+(?:\s+[A-Z][a-z]+)*)`: length of a party-name match at the
current position. -/
def matchNameLen (l : List Nat) : Option Nat :=
  match l with
  | c :: rest =>
    if isUpperChar c then
      let lows := rest.takeWhile isLowerChar
      if lows.isEmpty then none
      else some (nameExtend (rest.drop lows.length) (1 + lows.length))
    else none
  | [] => none

/-- One match of `(Name)\s+v\.\s+(Name)` at the current position:
`(length, plaintiff, defendant)`. -/
def matchVs (l : List Nat) : Option (Nat × Text × Text) :=
  match matchNameLen l with
  | none => none
  | some n1 =>
    let l1 := l.drop n1
    let ws1 := l1.takeWhile isSpace
    if ws1.isEmpty then none
    else
      match l1.drop ws1.length with
      | 118 :: 46 :: l2 =>
        let ws2 := l2.takeWhile isSpace
        if ws2.isEmpty then none
        else
          match matchNameLen (l2.drop ws2.length) with
          | none => none
          | some n2 =>
            some (n1 + ws1.length + 2 + ws2.length + n2, l.take n1,
                  (l2.drop ws2.length).take n2)
      | _ => none

/-- `findall` of the `v.` pattern: `(group(1), group(2))` pairs of the
non-overlapping matches. -/
def findParties : List Nat → List (Text × Text)
  | [] => []
  | c :: rest =>
    match matchVs (c :: rest) with
    | some (len, g1, g2) => (g1, g2) :: findParties ((c :: rest).drop (max len 1))
    | none => findParties rest
termination_by l => l.length
decreasing_by
  all_goals simp only [List.length_drop, List.length_cons]; omega

/-- `LegalTextParser._extract_parties`: both sides of every match, stripped,
then `list(set(parties))[:10]`. -/
def extract_parties (text : Text) : List Text :=
  (dedupKeepFirst ((findParties text).flatMap (fun pd => [stripText pd.1, stripText pd.2]))).take 10

/-! ### parse_document -/

/-- Python `str.split()` with no separator: split on whitespace runs,
discarding empty fields. -/
def splitWsAux : Text → Text → List Text
  | [], acc => if acc.isEmpty then [] else [acc.reverse]
  | c :: rest, acc =>
    if isSpace c then
      if acc.isEmpty then splitWsAux rest [] else acc.reverse :: splitWsAux rest []
    else splitWsAux rest (c :: acc)

/-- Python `text.split()`. -/
def splitWs (l : Text) : List Text := splitWsAux l []

/-- The parser-derived `text_metadata` dictionary of `parse_document`, in
source key order. -/
def text_metadata (text : Text) : Metadata :=
  [("dates", .ls (extract_dates text)),
   ("case_numbers", .ls (extract_case_numbers text)),
   ("parties", .ls (extract_parties text)),
   ("word_count", .n (splitWs text).length),
   ("character_count", .n text.length)]

/-- `LegalTextParser.parse_document`; `doc_metadata` is merged into the
parser metadata only when truthy (`if doc_metadata:` skips both `None` and
an empty mapping). -/
def parse_document (text : Text) (doc_metadata : Option Metadata) : ParsedDocument :=
  let sections := extract_sections text
  let citations := extract_citations text
  let paragraphs := extract_paragraphs text
  let base := text_metadata text
  let metadata :=
    match doc_metadata with
    | some m => if m.isEmpty then base else dictUpdate base m
    | none => base
  { raw_text := text, sections := sections, citations := citations,
    metadata := metadata, paragraphs := paragraphs }

/-! ### difflib.SequenceMatcher

`DocumentComparisonEngine` calls `SequenceMatcher(None, a, b)` from the
Python standard library, embedded here for character sequences with
`isjunk = None` (so `bjunk` is always empty) and the default
`autojunk = True`. -/

/-- The "popular element" test of `SequenceMatcher.__chain_b`: with
`autojunk` and `n = len(b) >= 200`, elements occurring more than
`n // 100 + 1` times are purged from `b2j`. -/
def bpopular (b : List Nat) (c : Nat) : Bool :=
  200 ≤ b.length && b.length / 100 + 1 < b.count c

/-- `b2j.get(elt, [])`: the ascending list of indices of `elt` in `b`,
empty for popular elements (no junk, since `isjunk` is `None`). -/
def b2jGet (b : List Nat) (c : Nat) : List Nat :=
  if bpopular b c then []
  else (List.range b.length).filter (fun j => b.getD j 0 == c)

/-- The inner `for j in b2j.get(a[i], nothing)` loop of
`find_longest_match`: `j2len` is the previous iteration's map (a total
function with default 0, modelling `dict.get(j-1, 0)` — the Python key
`-1` is modelled by the `j = 0` case), `newj2len` the map under
construction; `j >= bhi` breaks out of the loop. -/
def flmInner (i : Nat) (j2len : Nat → Nat) (blo bhi : Nat) :
    List Nat → (Nat → Nat) → Nat × Nat × Nat → (Nat → Nat) × (Nat × Nat × Nat)
  | [], newj2len, best => (newj2len, best)
  | j :: js, newj2len, best =>
    if j < blo then flmInner i j2len blo bhi js newj2len best
    else if bhi ≤ j then (newj2len, best)
    else
      let k := (if j = 0 then 0 else j2len (j - 1)) + 1
      let newj2len' := fun j' => if j' = j then k else newj2len j'
      let best' := if best.2.2 < k then (i + 1 - k, j + 1 - k, k) else best
      flmInner i j2len blo bhi js newj2len' best'

/-- The outer `for i in range(alo, ahi)` loop of `find_longest_match`. -/
def flmOuter (a b : List Nat) (blo bhi : Nat) :
    List Nat → (Nat → Nat) → Nat × Nat × Nat → Nat × Nat × Nat
  | [], _, best => best
  | i :: is, j2len, best =>
    let r := flmInner i j2len blo bhi (b2jGet b (a.getD i 0)) (fun _ => 0) best
    flmOuter a b blo bhi is r.1 r.2

/-- First extension loop: `while besti > alo and bestj > blo and not
isbjunk(b[bestj-1]) and a[besti-1] == b[bestj-1]` (with empty `bjunk` the
junk test is vacuous). -/
def extendLower (a b : List Nat) (alo blo : Nat) : Nat × Nat × Nat → Nat × Nat × Nat
  | (besti, bestj, bestsize) =>
    if h : alo < besti ∧ blo < bestj ∧ a.getD (besti - 1) 0 = b.getD (bestj - 1) 0 then
      extendLower a b alo blo (besti - 1, bestj - 1, bestsize + 1)
    else (besti, bestj, bestsize)
termination_by s => s.1
decreasing_by omega

/-- Second extension loop: `while besti+bestsize < ahi and bestj+bestsize <
bhi and not isbjunk(...) and a[besti+bestsize] == b[bestj+bestsize]`. -/
def extendUpper (a b : List Nat) (ahi bhi : Nat) : Nat × Nat × Nat → Nat × Nat × Nat
  | (besti, bestj, bestsize) =>
    if h : besti + bestsize < ahi ∧ bestj + bestsize < bhi ∧
           a.getD (besti + bestsize) 0 = b.getD (bestj + bestsize) 0 then
      extendUpper a b ahi bhi (besti, bestj, bestsize + 1)
    else (besti, bestj, bestsize)
termination_by s => ahi - (s.1 + s.2.2)
decreasing_by omega

/-- `SequenceMatcher.find_longest_match(alo, ahi, blo, bhi)`.  The last two
loops of the source extend the match over junk elements
(`isbjunk(b[...])`); with `isjunk = None` the junk set is empty, so they
never run and are omitted. -/
def find_longest_match (a b : List Nat) (alo ahi blo bhi : Nat) : Nat × Nat × Nat :=
  let best := flmOuter a b blo bhi (List.range' alo (ahi - alo)) (fun _ => 0) (alo, blo, 0)
  extendUpper a b ahi bhi (extendLower a b alo blo best)

/-- The `while queue` loop of `get_matching_blocks`; `queue.pop()` pops the
most recently appended entry, so the head of the list is the stack top.
`fuel` bounds the iteration count (each popped range either disappears or
splits into two strictly smaller ones, so the quadratic bound supplied by
`get_matching_blocks` is never exhausted). -/
def gmbLoop (a b : List Nat) : Nat → List (Nat × Nat × Nat × Nat) →
    List (Nat × Nat × Nat) → List (Nat × Nat × Nat)
  | _, [], acc => acc
  | 0, _ :: _, acc => acc
  | fuel + 1, (alo, ahi, blo, bhi) :: q, acc =>
    let x := find_longest_match a b alo ahi blo bhi
    if x.2.2 ≠ 0 then
      let q1 := if alo < x.1 ∧ blo < x.2.1 then (alo, x.1, blo, x.2.1) :: q else q
      let q2 := if x.1 + x.2.2 < ahi ∧ x.2.1 + x.2.2 < bhi then
                  (x.1 + x.2.2, ahi, x.2.1 + x.2.2, bhi) :: q1
                else q1
      gmbLoop a b fuel q2 (acc ++ [x])
    else gmbLoop a b fuel q acc

/-- Lexicographic order on block triples (`matching_blocks.sort()`). -/
def blockLE (x y : Nat × Nat × Nat) : Prop :=
  x.1 < y.1 ∨ (x.1 = y.1 ∧ (x.2.1 < y.2.1 ∨ (x.2.1 = y.2.1 ∧ x.2.2 ≤ y.2.2)))

instance : DecidableRel blockLE := fun x y => by unfold blockLE; infer_instance

/-- The adjacent-block collapsing loop of `get_matching_blocks` (`i1 = j1 =
k1 = 0` accumulator; a block adjacent to the accumulator extends it,
otherwise the accumulator is flushed when non-empty). -/
def collapseBlocks : List (Nat × Nat × Nat) → Nat × Nat × Nat → List (Nat × Nat × Nat)
  | [], (i1, j1, k1) => if k1 ≠ 0 then [(i1, j1, k1)] else []
  | (i2, j2, k2) :: rest, (i1, j1, k1) =>
    if i1 + k1 = i2 ∧ j1 + k1 = j2 then collapseBlocks rest (i1, j1, k1 + k2)
    else (if k1 ≠ 0 then [(i1, j1, k1)] else []) ++ collapseBlocks rest (i2, j2, k2)

/-- `SequenceMatcher.get_matching_blocks`, terminated by the
`(len(a), len(b), 0)` sentinel. -/
def get_matching_blocks (a b : List Nat) : List (Nat × Nat × Nat) :=
  let raw := gmbLoop a b ((a.length + b.length + 1) * (a.length + b.length + 1))
    [(0, a.length, 0, b.length)] []
  collapseBlocks (raw.insertionSort blockLE) (0, 0, 0) ++ [(a.length, b.length, 0)]

/-- Opcode tags (the strings `replace` / `delete` / `insert` / `equal`). -/
inductive Tag where
  | replace
  | delete
  | insert
  | equal
deriving DecidableEq, Repr

/-- The block loop of `get_opcodes`. -/
def opcodesLoop : List (Nat × Nat × Nat) → Nat → Nat → List (Tag × Nat × Nat × Nat × Nat)
  | [], _, _ => []
  | (ai, bj, size) :: rest, i, j =>
    let pre : List (Tag × Nat × Nat × Nat × Nat) :=
      if i < ai ∧ j < bj then [(Tag.replace, i, ai, j, bj)]
      else if i < ai then [(Tag.delete, i, ai, j, bj)]
      else if j < bj then [(Tag.insert, i, ai, j, bj)]
      else []
    pre ++ (if size ≠ 0 then [(Tag.equal, ai, ai + size, bj, bj + size)] else []) ++
      opcodesLoop rest (ai + size) (bj + size)

/-- `SequenceMatcher.get_opcodes`. -/
def get_opcodes (a b : List Nat) : List (Tag × Nat × Nat × Nat × Nat) :=
  opcodesLoop (get_matching_blocks a b) 0 0

/-- `SequenceMatcher.ratio` (`_calculate_ratio(matches, len(a)+len(b))`),
as an exact rational. -/
def ratioQ (a b : List Nat) : ℚ :=
  let m := ((get_matching_blocks a b).map (fun t => t.2.2)).sum
  if a.length + b.length ≠ 0 then 2 * (m : ℚ) / ((a.length : ℚ) + (b.length : ℚ))
  else 1

/-! ### DocumentComparisonEngine -/

/-- One entry of the list built by
`DocumentComparisonEngine._identify_differences`. -/
structure DiffOperation where
  type : Tag
  original_text : Text
  modified_text : Text
  position : Nat
  severity : Text
deriving DecidableEq, Repr

/-- `DocumentComparisonEngine._identify_differences`. -/
def identify_differences (text_a text_b : Text) : List DiffOperation :=
  (get_opcodes text_a text_b).filterMap (fun op =>
    if op.1 ≠ Tag.equal then
      some { type := op.1,
             original_text := if op.2.1 < op.2.2.1 then sliceText text_a op.2.1 op.2.2.1 else [],
             modified_text := if op.2.2.2.1 < op.2.2.2.2 then
                                sliceText text_b op.2.2.2.1 op.2.2.2.2
                              else [],
             position := op.2.1,
             severity := lit "material" }
    else none)

/-- `DocumentComparisonEngine._calculate_similarity`. -/
def calculate_similarity (text_a text_b : Text) : ℚ := ratioQ text_a text_b

/-! ### Verification scaffolding definitions -/

/-- A Unicode scalar value: what each code point of a Python `str` accepted
by `encode('utf-8')` satisfies. -/
def validChar (c : Nat) : Prop := c < 0x110000 ∧ ¬ (0xD800 ≤ c ∧ c < 0xE000)

instance : DecidablePred validChar := fun c => by unfold validChar; infer_instance

/-- The result-shape invariant of every extraction result dictionary. -/
def result_invariant (r : ExtractionResult) : Prop :=
  (r.success = true ∧ r.error = none) ∨ (r.success = false ∧ r.text = [])

/-- A sequence of `extract_text` calls threaded through the extractor's
statistics state. -/
def runExtractions (calls : List (ExtractorEnv × List Nat × Text × Bool))
    (st : ExtractionStats) : ExtractionStats :=
  calls.foldl (fun s c => (extract_text c.1 c.2.1 c.2.2.1 c.2.2.2 s).2) st

/-- A concrete library-behaviour environment used to instantiate witness
statements (every library call raises). -/
def sampleEnv : ExtractorEnv :=
  { pdf := { plumber := .error (lit "boom"), pypdf2 := .error (lit "boom") },
    docx := .error (lit "boom") }

/-- A concrete call sequence (one success, one unsupported-format failure)
used to instantiate witness statements. -/
def sampleCalls : List (ExtractorEnv × List Nat × Text × Bool) :=
  [(sampleEnv, utf8Encode (lit "Test document"), lit "test.txt", true),
   (sampleEnv, lit "test", lit "test.xyz", true)]

/-! ### Scaffolding for the `find_longest_match` analysis on identical
sequences

`chainlen s i j` is the value the `j2len` chains of `find_longest_match`
(run on `a = b = s` over the full ranges) hold at key `j` after processing
index `i`: the length of the current junk-free match ending at `a[i]` and
`b[j]`.  `Dmax s m` is the best size after the first `m` outer
iterations. -/

/-- `j` is a `b2j` hit for outer index `i` on identical sequences: a valid
index holding the same (non-popular) element as `s[i]`. -/
def posOk (s : List Nat) (i j : Nat) : Prop :=
  j < s.length ∧ s.getD j 0 = s.getD i 0 ∧ bpopular s (s.getD i 0) = false

instance (s : List Nat) (i j : Nat) : Decidable (posOk s i j) := by
  unfold posOk
  infer_instance

/-- The `j2len` chain value at key `j` after outer step `i`. -/
def chainlen (s : List Nat) : Nat → Nat → Nat
  | 0, j => if posOk s 0 j then 1 else 0
  | i + 1, 0 => if posOk s (i + 1) 0 then 1 else 0
  | i + 1, j + 1 => if posOk s (i + 1) (j + 1) then chainlen s i j + 1 else 0

/-- The `j2len` map entering outer step `i` (empty before the first
step). -/
def chainMapBefore (s : List Nat) : Nat → (Nat → Nat)
  | 0 => fun _ => 0
  | i + 1 => fun j => chainlen s i j

/-- The best match size after the first `m` outer iterations of
`find_longest_match` on identical sequences. -/
def Dmax (s : List Nat) : Nat → Nat
  | 0 => 0
  | m + 1 => max (Dmax s m) (chainlen s m m)

/-! ## Theorems -/

/-! ### UTF-8 round trip -/

theorem utf8DecodeOne_encodeChar (c : Nat) (hc : validChar c) (r : List Nat) :
    utf8DecodeOne ((utf8EncodeChar c).headI) ((utf8EncodeChar c).tail ++ r) =
      some (c, (utf8EncodeChar c).tail.length) := by
  obtain ⟨h1, h2⟩ := hc
  by_cases ha : c < 0x80
  · rw [utf8EncodeChar, if_pos ha]
    simp only [List.headI, List.tail, List.nil_append, List.length_nil]
    rw [utf8DecodeOne.eq_def, if_pos ha]
  · by_cases hb : c < 0x800
    · rw [utf8EncodeChar, if_neg ha, if_pos hb]
      simp only [List.headI, List.tail, List.cons_append, List.length_cons, List.length_nil]
      rw [utf8DecodeOne.eq_def, if_neg (by omega), if_neg (by omega), if_pos (by omega)]
      have hcont : isCont (0x80 + c % 64) = true := by
        simp only [isCont, Bool.and_eq_true, decide_eq_true_eq]
        omega
      simp only [hcont, if_true]
      have hv : (0xC0 + c / 64 - 0xC0) * 64 + (0x80 + c % 64 - 0x80) = c := by omega
      rw [hv]
    · by_cases hd : c < 0x10000
      · rw [utf8EncodeChar, if_neg ha, if_neg hb, if_pos hd]
        simp only [List.headI, List.tail, List.cons_append, List.length_cons, List.length_nil]
        rw [utf8DecodeOne.eq_def, if_neg (by omega), if_neg (by omega), if_neg (by omega),
            if_pos (by omega)]
        have hlow : (if 0xE0 + c / 4096 = 0xE0 then
              decide (0xA0 ≤ 0x80 + c / 64 % 64) && decide (0x80 + c / 64 % 64 < 0xC0)
            else if 0xE0 + c / 4096 = 0xED then
              decide (0x80 ≤ 0x80 + c / 64 % 64) && decide (0x80 + c / 64 % 64 < 0xA0)
            else isCont (0x80 + c / 64 % 64)) = true := by
          by_cases he : c < 0x1000
          · rw [if_pos (by omega)]
            simp only [Bool.and_eq_true, decide_eq_true_eq]
            omega
          · by_cases hf : 0xD000 ≤ c ∧ c < 0xE000
            · rw [if_neg (by omega), if_pos (by omega)]
              simp only [Bool.and_eq_true, decide_eq_true_eq]
              omega
            · rw [if_neg (by omega), if_neg (by omega)]
              simp only [isCont, Bool.and_eq_true, decide_eq_true_eq]
              omega
        have hcont : isCont (0x80 + c % 64) = true := by
          simp only [isCont, Bool.and_eq_true, decide_eq_true_eq]
          omega
        simp only [hlow, hcont, Bool.and_self, if_true]
        have hv : (0xE0 + c / 4096 - 0xE0) * 4096 + (0x80 + c / 64 % 64 - 0x80) * 64 +
            (0x80 + c % 64 - 0x80) = c := by omega
        rw [hv]
      · rw [utf8EncodeChar, if_neg ha, if_neg hb, if_neg hd]
        simp only [List.headI, List.tail, List.cons_append, List.length_cons, List.length_nil]
        rw [utf8DecodeOne.eq_def, if_neg (by omega), if_neg (by omega), if_neg (by omega),
            if_neg (by omega), if_pos (by omega)]
        have hlow : (if 0xF0 + c / 262144 = 0xF0 then
              decide (0x90 ≤ 0x80 + c / 4096 % 64) && decide (0x80 + c / 4096 % 64 < 0xC0)
            else if 0xF0 + c / 262144 = 0xF4 then
              decide (0x80 ≤ 0x80 + c / 4096 % 64) && decide (0x80 + c / 4096 % 64 < 0x90)
            else isCont (0x80 + c / 4096 % 64)) = true := by
          by_cases he : c < 0x40000
          · rw [if_pos (by omega)]
            simp only [Bool.and_eq_true, decide_eq_true_eq]
            omega
          · by_cases hf : 0x100000 ≤ c
            · rw [if_neg (by omega), if_pos (by omega)]
              simp only [Bool.and_eq_true, decide_eq_true_eq]
              omega
            · rw [if_neg (by omega), if_neg (by omega)]
              simp only [isCont, Bool.and_eq_true, decide_eq_true_eq]
              omega
        have hc2 : isCont (0x80 + c / 64 % 64) = true := by
          simp only [isCont, Bool.and_eq_true, decide_eq_true_eq]
          omega
        have hc3 : isCont (0x80 + c % 64) = true := by
          simp only [isCont, Bool.and_eq_true, decide_eq_true_eq]
          omega
        simp only [hlow, hc2, hc3, Bool.and_self, if_true]
        have hv : (0xF0 + c / 262144 - 0xF0) * 262144 + (0x80 + c / 4096 % 64 - 0x80) * 4096 +
            (0x80 + c / 64 % 64 - 0x80) * 64 + (0x80 + c % 64 - 0x80) = c := by omega
        rw [hv]

theorem utf8EncodeChar_ne_nil (c : Nat) : utf8EncodeChar c ≠ [] := by
  rw [utf8EncodeChar]
  split
  · simp
  · split
    · simp
    · split
      · simp
      · simp

theorem utf8Decode_encodeChar (c : Nat) (hc : validChar c) (bs : List Nat) :
    utf8Decode (utf8EncodeChar c ++ bs) = (utf8Decode bs).map (fun t => c :: t) := by
  have hne := utf8EncodeChar_ne_nil c
  have hcons : utf8EncodeChar c ++ bs =
      (utf8EncodeChar c).headI :: ((utf8EncodeChar c).tail ++ bs) := by
    cases hE : utf8EncodeChar c with
    | nil => exact absurd hE hne
    | cons x xs => simp [List.headI, List.tail]
  rw [hcons, utf8Decode, utf8DecodeOne_encodeChar c hc bs]
  simp only [List.drop_left]

theorem utf8Decode_utf8Encode (S : Text) (hS : ∀ c ∈ S, validChar c) :
    utf8Decode (utf8Encode S) = some S := by
  induction S with
  | nil => rw [utf8Encode, utf8Decode]
  | cons c cs ih =>
    rw [utf8Encode, utf8Decode_encodeChar c (hS c (by simp)) (utf8Encode cs),
        ih (fun x hx => hS x (by simp [hx]))]
    rfl

/-! ### C3: TXT round trip -/

theorem extract_from_txt_utf8 (S : Text) (hS : ∀ c ∈ S, validChar c) :
    extract_from_txt (utf8Encode S) =
      { text := S,
        metadata := [("encoding", .s (lit "utf-8")), ("size_bytes", .n (utf8Encode S).length),
                     ("extraction_method", .s (lit "decode"))],
        extraction_method := lit "decode", success := true, error := none } := by
  rw [extract_from_txt, encodings_to_try, tryDecodeLoop, utf8Decode_utf8Encode S hS]

theorem extract_text_txt_dispatch (env : ExtractorEnv) (content : List Nat) (filename : Text)
    (use_fallback : Bool) (stats : ExtractionStats) (hf : fileExtOf filename = lit ".txt") :
    (extract_text env content filename use_fallback stats).1 = extract_from_txt content := by
  rw [extract_text, hf]
  rw [if_neg (by decide), if_neg (by decide), if_neg (by decide), if_pos rfl]

/-- C3: for every string `S`, extracting the UTF-8 encoding of `S` under a
filename with a `.txt` extension returns a result whose `text` equals `S`,
whose method is `decode`, and whose metadata records encoding `utf-8`. -/
theorem c3_txt_utf8_roundtrip (S : Text) (filename : Text) (env : ExtractorEnv)
    (use_fallback : Bool) (stats : ExtractionStats)
    (hS : ∀ c ∈ S, validChar c) (hf : fileExtOf filename = lit ".txt") :
    (extract_text env (utf8Encode S) filename use_fallback stats).1.text = S ∧
    (extract_text env (utf8Encode S) filename use_fallback stats).1.extraction_method =
      lit "decode" ∧
    dictGet (extract_text env (utf8Encode S) filename use_fallback stats).1.metadata
      "encoding" = some (.s (lit "utf-8")) := by
  rw [extract_text_txt_dispatch env _ filename use_fallback stats hf,
      extract_from_txt_utf8 S hS]
  refine ⟨rfl, rfl, ?_⟩
  rfl

/-- Witness for C3 at the concrete string `"Hello"` and filename
`"test.txt"`. -/
theorem c3_txt_utf8_roundtrip_witness :
    (∀ c ∈ lit "Hello", validChar c) ∧ fileExtOf (lit "test.txt") = lit ".txt" ∧
    (extract_text sampleEnv (utf8Encode (lit "Hello")) (lit "test.txt") true
      ⟨0, 0, 0⟩).1.text = lit "Hello" :=
  ⟨by decide, by decide,
   (c3_txt_utf8_roundtrip (lit "Hello") (lit "test.txt") sampleEnv true ⟨0, 0, 0⟩
     (by decide) (by decide)).1⟩

/-! ### C5: unsupported extension -/

/-- C5: for every byte sequence and filename whose lowercased suffix is not
one of `.pdf`, `.docx`, `.doc`, `.txt`, `extract_text` returns a failure
result with empty text, method `none` and a descriptive error message (no
exception is modelled: the unsupported branch returns a value). -/
theorem c5_unsupported_extension (env : ExtractorEnv) (content : List Nat) (filename : Text)
    (use_fallback : Bool) (stats : ExtractionStats)
    (h : fileExtOf filename ∉ SUPPORTED_EXTENSIONS) :
    (extract_text env content filename use_fallback stats).1 =
      { text := [], metadata := [], extraction_method := lit "none", success := false,
        error := some (lit "Unsupported file type: " ++ fileExtOf filename) } := by
  rw [extract_text, if_pos h]

/-- Witness for C5 at the concrete filename `"test.xyz"`. -/
theorem c5_unsupported_extension_witness :
    fileExtOf (lit "test.xyz") ∉ SUPPORTED_EXTENSIONS ∧
    (extract_text sampleEnv (lit "fake content") (lit "test.xyz") true ⟨0, 0, 0⟩).1 =
      { text := [], metadata := [], extraction_method := lit "none", success := false,
        error := some (lit "Unsupported file type: " ++ fileExtOf (lit "test.xyz")) } :=
  ⟨by decide,
   c5_unsupported_extension sampleEnv (lit "fake content") (lit "test.xyz") true ⟨0, 0, 0⟩
     (by decide)⟩

/-! ### C10: the TXT path always succeeds -/

theorem tryDecodeLoop_invariant (content : List Nat) (encs : List (Text × (List Nat → Option Text))) :
    result_invariant (tryDecodeLoop content encs) := by
  induction encs with
  | nil => exact Or.inr ⟨rfl, rfl⟩
  | cons e rest ih =>
    obtain ⟨name, dec⟩ := e
    rw [tryDecodeLoop]
    cases dec content with
    | some t => exact Or.inl ⟨rfl, rfl⟩
    | none => exact ih

/-- C10: for every byte sequence under a `.txt` filename, extraction always
succeeds with method `decode` — the second candidate encoding (latin-1)
decodes every byte sequence, so the "Unable to decode" branch is
unreachable. -/
theorem c10_txt_always_succeeds (env : ExtractorEnv) (content : List Nat) (filename : Text)
    (use_fallback : Bool) (stats : ExtractionStats)
    (hb : ∀ b ∈ content, b < 256) (hf : fileExtOf filename = lit ".txt") :
    (extract_text env content filename use_fallback stats).1.success = true ∧
    (extract_text env content filename use_fallback stats).1.extraction_method =
      lit "decode" := by
  rw [extract_text_txt_dispatch env content filename use_fallback stats hf]
  rw [extract_from_txt, encodings_to_try, tryDecodeLoop]
  cases hu : utf8Decode content with
  | some t => exact ⟨rfl, rfl⟩
  | none =>
    rw [tryDecodeLoop, latin1Decode]
    exact ⟨rfl, rfl⟩

/-- Witness for C10 at the concrete byte sequence `[0xFF]` (invalid UTF-8,
decoded by latin-1) under filename `"notes.txt"`. -/
theorem c10_txt_always_succeeds_witness :
    (∀ b ∈ [0xFF], b < 256) ∧ fileExtOf (lit "notes.txt") = lit ".txt" ∧
    (extract_text sampleEnv [0xFF] (lit "notes.txt") true ⟨0, 0, 0⟩).1.success = true :=
  ⟨by decide, by decide,
   (c10_txt_always_succeeds sampleEnv [0xFF] (lit "notes.txt") true ⟨0, 0, 0⟩
     (by decide) (by decide)).1⟩

/-! ### C1: the result-shape invariant -/

theorem plumberAttempt_ok (o : Except Text PdfPlumberDoc) (r : ExtractionResult)
    (h : plumberAttempt o = .ok r) : r.success = true ∧ r.error = none := by
  cases o with
  | error e => simp [plumberAttempt] at h
  | ok doc =>
    rw [plumberAttempt] at h
    split at h
    · cases h
      exact ⟨rfl, rfl⟩
    · cases h

theorem extract_from_pdf_pypdf2_ok (o : Except Text PyPdf2Doc) (r : ExtractionResult)
    (h : extract_from_pdf_pypdf2 o = .ok r) : r.success = true ∧ r.error = none := by
  cases o with
  | error e => simp [extract_from_pdf_pypdf2] at h
  | ok doc =>
    rw [extract_from_pdf_pypdf2] at h
    split at h
    · cases h
    · cases h
      exact ⟨rfl, rfl⟩

theorem extract_from_pdf_invariant (o : PdfLibOutcome) (fb : Bool) :
    result_invariant (extract_from_pdf o fb) := by
  rw [extract_from_pdf]
  cases hp : plumberAttempt o.plumber with
  | ok r => exact Or.inl (plumberAttempt_ok o.plumber r hp)
  | error e =>
    cases fb with
    | true =>
      simp only [if_true]
      cases hq : extract_from_pdf_pypdf2 o.pypdf2 with
      | ok r => exact Or.inl (extract_from_pdf_pypdf2_ok o.pypdf2 r hq)
      | error fe => exact Or.inr ⟨rfl, rfl⟩
    | false => exact Or.inr ⟨rfl, rfl⟩

theorem extract_from_docx_invariant (o : Except Text DocxDoc) :
    result_invariant (extract_from_docx o) := by
  cases o with
  | error e => exact Or.inr ⟨rfl, rfl⟩
  | ok doc => exact Or.inl ⟨rfl, rfl⟩

/-- C1: every result returned by `extract_text` satisfies the invariant:
`success = true` implies `error = none`, and `success = false` implies
`text = ""`. -/
theorem c1_extraction_result_invariant (env : ExtractorEnv) (content : List Nat)
    (filename : Text) (use_fallback : Bool) (stats : ExtractionStats) :
    ((extract_text env content filename use_fallback stats).1.success = true ∧
      (extract_text env content filename use_fallback stats).1.error = none) ∨
    ((extract_text env content filename use_fallback stats).1.success = false ∧
      (extract_text env content filename use_fallback stats).1.text = []) := by
  have : result_invariant (extract_text env content filename use_fallback stats).1 := by
    rw [extract_text]
    split
    · exact Or.inr ⟨rfl, rfl⟩
    · simp only
      split
      · exact extract_from_pdf_invariant env.pdf use_fallback
      · split
        · exact extract_from_docx_invariant env.docx
        · split
          · exact tryDecodeLoop_invariant content encodings_to_try
          · exact Or.inr ⟨rfl, rfl⟩
  exact this

/-! ### C7: extraction statistics -/

theorem extract_text_stats_step (env : ExtractorEnv) (content : List Nat) (filename : Text)
    (use_fallback : Bool) (st : ExtractionStats) :
    (extract_text env content filename use_fallback st).2.total_extracted =
      st.total_extracted + 1 ∧
    (((extract_text env content filename use_fallback st).2.successful = st.successful + 1 ∧
      (extract_text env content filename use_fallback st).2.failed = st.failed) ∨
     ((extract_text env content filename use_fallback st).2.failed = st.failed + 1 ∧
      (extract_text env content filename use_fallback st).2.successful = st.successful)) := by
  rw [extract_text]
  split
  · exact ⟨rfl, Or.inr ⟨rfl, rfl⟩⟩
  · simp only
    refine ⟨?_, ?_⟩
    · repeat' split
      all_goals rfl
    · repeat' split
      all_goals first
        | exact Or.inl ⟨rfl, rfl⟩
        | exact Or.inr ⟨rfl, rfl⟩

/-- C7: every `extract_text` call, whatever its outcome, increments
`total_extracted` by exactly 1 and exactly one of `successful` / `failed`
by 1; consequently, after any sequence of `N` calls `total_extracted`
equals its prior value plus `N`, and `successful + failed =
total_extracted` is preserved from any state satisfying it. -/
theorem c7_statistics :
    (∀ (env : ExtractorEnv) (content : List Nat) (filename : Text) (use_fallback : Bool)
        (st : ExtractionStats),
      (extract_text env content filename use_fallback st).2.total_extracted =
        st.total_extracted + 1 ∧
      (((extract_text env content filename use_fallback st).2.successful = st.successful + 1 ∧
        (extract_text env content filename use_fallback st).2.failed = st.failed) ∨
       ((extract_text env content filename use_fallback st).2.failed = st.failed + 1 ∧
        (extract_text env content filename use_fallback st).2.successful = st.successful))) ∧
    (∀ (calls : List (ExtractorEnv × List Nat × Text × Bool)) (st : ExtractionStats),
      (runExtractions calls st).total_extracted = st.total_extracted + calls.length ∧
      (st.successful + st.failed = st.total_extracted →
        (runExtractions calls st).successful + (runExtractions calls st).failed =
          (runExtractions calls st).total_extracted)) := by
  refine ⟨fun env content filename fb st => extract_text_stats_step env content filename fb st,
          fun calls => ?_⟩
  induction calls with
  | nil =>
    intro st
    exact ⟨rfl, fun h => h⟩
  | cons cl cls ih =>
    intro st
    have hstep := extract_text_stats_step cl.1 cl.2.1 cl.2.2.1 cl.2.2.2 st
    have hrun : runExtractions (cl :: cls) st =
        runExtractions cls ((extract_text cl.1 cl.2.1 cl.2.2.1 cl.2.2.2 st).2) := rfl
    rw [hrun]
    have ihr := ih ((extract_text cl.1 cl.2.1 cl.2.2.1 cl.2.2.2 st).2)
    refine ⟨?_, fun hinv => ?_⟩
    · rw [ihr.1, hstep.1, List.length_cons]
      omega
    · apply ihr.2
      rcases hstep.2 with ⟨h1, h2⟩ | ⟨h1, h2⟩ <;> omega

/-- Witness for C7 on a concrete two-call sequence (one success, one
failure) from the all-zero statistics state. -/
theorem c7_statistics_witness :
    (0 : Nat) + 0 = 0 ∧
    (runExtractions sampleCalls ⟨0, 0, 0⟩).successful +
        (runExtractions sampleCalls ⟨0, 0, 0⟩).failed =
      (runExtractions sampleCalls ⟨0, 0, 0⟩).total_extracted :=
  ⟨rfl, (c7_statistics.2 sampleCalls ⟨0, 0, 0⟩).2 rfl⟩

/-! ### C8: raw text identity -/

/-- C8: for every input text, the `ParsedDocument` returned by
`parse_document` has `raw_text` exactly equal to the input. -/
theorem c8_raw_text_identity (text : Text) (md : Option Metadata) :
    (parse_document text md).raw_text = text := rfl

/-! ### C9: section hierarchy levels -/

theorem estimate_section_level_range (line : Text) (num : Option Text) :
    estimate_section_level line num = 1 ∨ estimate_section_level line num = 2 ∨
      estimate_section_level line num = 3 := by
  rw [estimate_section_level.eq_def]
  rcases num with _ | num
  all_goals repeat' split
  all_goals first
    | exact Or.inl rfl
    | exact Or.inr (Or.inl rfl)
    | exact Or.inr (Or.inr rfl)

theorem extract_sections_aux_levels (lines : List Text) (pos : Nat) :
    ∀ s ∈ extract_sections_aux lines pos,
      s.level = 1 ∨ s.level = 2 ∨ s.level = 3 := by
  induction lines generalizing pos with
  | nil =>
    intro s hs
    simp [extract_sections_aux] at hs
  | cons line rest ih =>
    intro s hs
    rw [extract_sections_aux] at hs
    split at hs
    · exact ih _ s hs
    · split at hs
      · rcases List.mem_cons.mp hs with h1 | h2
        · subst h1
          exact estimate_section_level_range _ _
        · exact ih _ s h2
      · exact ih _ s hs

/-- C9: every `DocumentSection` produced by the parser has a level in
`{1, 2, 3}`; level 4 is never produced by the hierarchy heuristic. -/
theorem c9_section_levels (text : Text) (md : Option Metadata) :
    ((parse_document text md).sections).all
      (fun s => s.level == 1 || s.level == 2 || s.level == 3) = true := by
  have hsec : (parse_document text md).sections = extract_sections text := rfl
  rw [hsec, extract_sections]
  rw [List.all_eq_true]
  intro s hs
  rcases extract_sections_aux_levels (splitOnChar 10 text) 0 s hs with h | h | h <;>
    simp [h]

/-! ### C2: the ARTICLE/SECTION/PART header groups -/

/-- Counterexample to C2 as stated: on the header line
`"ARTICLE I - DEFINITIONS"` the ARTICLE/SECTION/PART pattern captures
`("ARTICLE", "I", "- DEFINITIONS")`, but the produced section stores the
keyword `"ARTICLE"` (not the numbering token `"I"`) in `section_number`,
and the numbering token `"I"` (not the remaining title text) in `title`:
the loop always reads `group(1)` / `group(2)`, which for this three-group
pattern are the keyword and the token. -/
theorem c2_counterexample :
    matchP4 (lit "ARTICLE I - DEFINITIONS") =
      some (lit "ARTICLE", lit "I", lit "- DEFINITIONS") ∧
    (extract_sections (lit "ARTICLE I - DEFINITIONS")).map
        (fun s => (s.section_number, s.title)) =
      [(some (lit "ARTICLE"), lit "I")] ∧
    some (lit "ARTICLE") ≠ some (lit "I") ∧
    lit "I" ≠ lit "- DEFINITIONS" ∧ lit "I" ≠ lit "DEFINITIONS" := by
  refine ⟨by decide, ?_, by decide, by decide, by decide⟩
  decide

theorem matchP4_ne_nil (line : Text) (kw tok rst : Text)
    (h : matchP4 line = some (kw, tok, rst)) : ¬ line.isEmpty = true := by
  intro hnil
  rw [List.isEmpty_iff] at hnil
  rw [hnil] at h
  have hnone : matchP4 ([] : Text) = none := by decide
  rw [hnone] at h
  exact Option.noConfusion h

/-- C2 amended: for a stripped header line on which patterns 1–3 fail and
the ARTICLE/SECTION/PART pattern matches with groups
`(keyword, token, rest)`, the produced `DocumentSection` has
`section_number = keyword` and `title = token` (the remaining title text
is discarded). -/
theorem c2_amended_article_groups (line : Text) (rest : List Text) (pos : Nat)
    (kw tok rst : Text)
    (h1 : matchP1 (stripText line) = none) (h2 : matchP2 (stripText line) = none)
    (h3 : matchP3 (stripText line) = none)
    (h4 : matchP4 (stripText line) = some (kw, tok, rst)) :
    ∃ s tl, extract_sections_aux (line :: rest) pos = s :: tl ∧
      s.section_number = some kw ∧ s.title = tok := by
  have hmh : matchHeader (stripText line) = some (some kw, tok) := by
    rw [matchHeader, h1, h2, h3, h4]
  have hne := matchP4_ne_nil (stripText line) kw tok rst h4
  rw [extract_sections_aux, if_neg hne]
  rw [hmh]
  exact ⟨_, _, rfl, rfl, rfl⟩

/-- Witness for the amended C2 at the concrete line
`"SECTION 5 - NOTICES"`. -/
theorem c2_amended_article_groups_witness :
    matchP1 (stripText (lit "SECTION 5 - NOTICES")) = none ∧
    matchP4 (stripText (lit "SECTION 5 - NOTICES")) =
      some (lit "SECTION", lit "5", lit "- NOTICES") ∧
    ∃ s tl, extract_sections_aux [lit "SECTION 5 - NOTICES"] 0 = s :: tl ∧
      s.section_number = some (lit "SECTION") ∧ s.title = lit "5" :=
  ⟨by decide, by decide,
   c2_amended_article_groups (lit "SECTION 5 - NOTICES") [] 0
     (lit "SECTION") (lit "5") (lit "- NOTICES")
     (by decide) (by decide) (by decide) (by decide)⟩

/-! ### C6: metadata merge order -/

theorem dictGet_cons (k1 : String) (w : MVal) (t : Metadata) (k : String) :
    dictGet ((k1, w) :: t) k = if k1 == k then some w else dictGet t k := by
  rw [dictGet, List.find?]
  cases h : (k1 == k) <;> simp [h, dictGet]

theorem dictGet_map_override (d1 d2 : Metadata) (k : String) :
    dictGet (d1.map (fun kv =>
      match dictGet d2 kv.1 with
      | some v => (kv.1, v)
      | none => kv)) k =
      match dictGet d2 k with
      | some v => (dictGet d1 k).map (fun _ => v)
      | none => dictGet d1 k := by
  induction d1 with
  | nil =>
    cases dictGet d2 k <;> rfl
  | cons hd tl ih =>
    obtain ⟨k1, v1⟩ := hd
    rw [List.map_cons]
    have hhead : (match dictGet d2 (k1, v1).1 with
        | some v => ((k1, v1).1, v)
        | none => (k1, v1)) =
        (k1, match dictGet d2 k1 with | some v => v | none => v1) := by
      cases dictGet d2 k1 <;> rfl
    rw [hhead, dictGet_cons, dictGet_cons]
    by_cases hk : (k1 == k) = true
    · have hk' : k1 = k := by
        rwa [beq_iff_eq] at hk
      subst hk'
      rw [if_pos hk, if_pos hk]
      cases dictGet d2 k1 <;> simp
    · have hk2 : (k1 == k) = false := by
        cases h : (k1 == k)
        · rfl
        · exact absurd h hk
      rw [if_neg (by simp [hk2]), if_neg (by simp [hk2])]
      rw [ih]

theorem dictGet_filter_absent (d1 d2 : Metadata) (k : String) (h : dictGet d1 k = none) :
    dictGet (d2.filter (fun kv => (dictGet d1 kv.1).isNone)) k = dictGet d2 k := by
  induction d2 with
  | nil => rfl
  | cons hd tl ih =>
    obtain ⟨k2, v2⟩ := hd
    rw [List.filter_cons]
    by_cases hk : (k2 == k) = true
    · have hk' : k2 = k := by rwa [beq_iff_eq] at hk
      subst hk'
      have hnone : (dictGet d1 (k2, v2).1).isNone = true := by
        simp only [h]
        rfl
      rw [if_pos hnone, dictGet_cons, dictGet_cons, if_pos hk, if_pos hk]
    · have hk2 : (k2 == k) = false := by
        cases hb : (k2 == k)
        · rfl
        · exact absurd hb hk
      cases hfilter : (dictGet d1 (k2, v2).1).isNone with
      | true =>
        rw [if_pos rfl, dictGet_cons, dictGet_cons,
            if_neg (by simp [hk2]), if_neg (by simp [hk2])]
        exact ih
      | false =>
        rw [if_neg (by simp), dictGet_cons, if_neg (by simp [hk2])]
        exact ih

theorem dictGet_dictUpdate (d1 d2 : Metadata) (k : String) :
    dictGet (dictUpdate d1 d2) k =
      match dictGet d2 k with
      | some v => some v
      | none => dictGet d1 k := by
  rw [dictUpdate]
  have happ : ∀ (A B : Metadata), dictGet (A ++ B) k =
      match dictGet A k with
      | some v => some v
      | none => dictGet B k := by
    intro A B
    rw [dictGet, List.find?_append]
    cases hA : dictGet A k with
    | some v =>
      rw [dictGet] at hA
      cases hfA : A.find? (fun kv => kv.1 == k) with
      | some kv => simp [hfA] at hA; simp [Option.orElse, hfA, hA]
      | none => simp [hfA] at hA
    | none =>
      rw [dictGet] at hA
      cases hfA : A.find? (fun kv => kv.1 == k) with
      | some kv => simp [hfA] at hA
      | none => simp [Option.orElse, hfA]; rfl
  rw [happ, dictGet_map_override]
  cases h1 : dictGet d1 k with
  | some v1 =>
    cases h2 : dictGet d2 k with
    | some v => simp
    | none => simp [h1]
  | none =>
    cases h2 : dictGet d2 k with
    | some v => simp [dictGet_filter_absent d1 d2 k h1, h2]
    | none => simp [dictGet_filter_absent d1 d2 k h1, h2]

/-- C6: for every text and externally supplied metadata mapping, the
metadata of the returned `ParsedDocument` maps every key present in the
external mapping to the external value (overwriting any parser-derived
value), while keys absent from the external mapping keep their
parser-computed values. -/
theorem c6_metadata_merge (text : Text) (md : Metadata) (k : String) :
    dictGet (parse_document text (some md)).metadata k =
      match dictGet md k with
      | some v => some v
      | none => dictGet (text_metadata text) k := by
  have hmeta : (parse_document text (some md)).metadata =
      if md.isEmpty then text_metadata text else dictUpdate (text_metadata text) md := rfl
  rw [hmeta]
  by_cases hm : md.isEmpty
  · have : md = [] := by
      cases md with
      | nil => rfl
      | cons a b => simp at hm
    subst this
    rw [if_pos hm]
    rfl
  · rw [if_neg hm, dictGet_dictUpdate]

/-! ### C4: comparing a text with itself

The non-trivial part is `find_longest_match s s 0 n 0 n = (0, 0, n)`.  The
inner dynamic-programming loop only ever moves the best match along the
main diagonal — every off-diagonal chain value is bounded by a diagonal
one that has already been (or is about to be) recorded — and the
extension loops then stretch a diagonal best to the whole sequence. -/

theorem chainlen_pos (s : List Nat) (i j : Nat) (h : posOk s i j) :
    1 ≤ chainlen s i j := by
  match i, j with
  | 0, j => rw [chainlen, if_pos h]
  | i + 1, 0 => rw [chainlen, if_pos h]
  | i + 1, j + 1 => rw [chainlen, if_pos h]; omega

theorem chainlen_eq_zero (s : List Nat) (i j : Nat) (h : ¬ posOk s i j) :
    chainlen s i j = 0 := by
  match i, j with
  | 0, j => rw [chainlen, if_neg h]
  | i + 1, 0 => rw [chainlen, if_neg h]
  | i + 1, j + 1 => rw [chainlen, if_neg h]

theorem posOk_of_chainlen_pos (s : List Nat) (i j : Nat) (h : chainlen s i j ≠ 0) :
    posOk s i j := by
  by_contra hn
  exact h (chainlen_eq_zero s i j hn)

theorem posOk_diag_right (s : List Nat) (i j : Nat) (h : posOk s i j) : posOk s j j := by
  obtain ⟨h1, h2, h3⟩ := h
  exact ⟨h1, rfl, by rw [h2]; exact h3⟩

theorem posOk_diag_left (s : List Nat) (i j : Nat) (h : posOk s i j) (hi : i < s.length) :
    posOk s i i := by
  obtain ⟨h1, h2, h3⟩ := h
  exact ⟨hi, rfl, h3⟩

theorem chainlen_le_succ (s : List Nat) (i j : Nat) : chainlen s i j ≤ i + 1 := by
  induction i generalizing j with
  | zero =>
    rw [chainlen]
    split <;> omega
  | succ i ih =>
    match j with
    | 0 => rw [chainlen]; split <;> omega
    | j + 1 =>
      rw [chainlen]
      split
      · have := ih j
        omega
      · omega

theorem chainlen_succ_succ (s : List Nat) (i j : Nat) (h : posOk s (i + 1) (j + 1)) :
    chainlen s (i + 1) (j + 1) = chainlen s i j + 1 := by
  rw [chainlen, if_pos h]

theorem chainlen_le_diag_left (s : List Nat) (i j : Nat) (hi : i < s.length) :
    chainlen s i j ≤ chainlen s i i := by
  induction i generalizing j with
  | zero =>
    by_cases h : posOk s 0 j
    · have e1 : chainlen s 0 j = 1 := by rw [chainlen, if_pos h]
      rw [e1]
      exact chainlen_pos s 0 0 (posOk_diag_left s 0 j h hi)
    · rw [chainlen_eq_zero s 0 j h]
      omega
  | succ i ih =>
    match j with
    | 0 =>
      by_cases h : posOk s (i + 1) 0
      · have e1 : chainlen s (i + 1) 0 = 1 := by rw [chainlen, if_pos h]
        rw [e1]
        exact chainlen_pos s (i + 1) (i + 1) (posOk_diag_left s (i + 1) 0 h hi)
      · rw [chainlen_eq_zero s (i + 1) 0 h]
        omega
    | j + 1 =>
      by_cases h : posOk s (i + 1) (j + 1)
      · have hd : posOk s (i + 1) (i + 1) := posOk_diag_left s (i + 1) (j + 1) h hi
        rw [chainlen_succ_succ s i j h, chainlen_succ_succ s i i hd]
        have := ih j (by omega)
        omega
      · rw [chainlen_eq_zero s (i + 1) (j + 1) h]
        omega

theorem chainlen_le_diag_right (s : List Nat) (i j : Nat) :
    chainlen s i j ≤ chainlen s j j := by
  induction i generalizing j with
  | zero =>
    by_cases h : posOk s 0 j
    · have e1 : chainlen s 0 j = 1 := by rw [chainlen, if_pos h]
      rw [e1]
      exact chainlen_pos s j j (posOk_diag_right s 0 j h)
    · rw [chainlen_eq_zero s 0 j h]
      omega
  | succ i ih =>
    match j with
    | 0 =>
      by_cases h : posOk s (i + 1) 0
      · have e1 : chainlen s (i + 1) 0 = 1 := by rw [chainlen, if_pos h]
        rw [e1]
        exact chainlen_pos s 0 0 (posOk_diag_right s (i + 1) 0 h)
      · rw [chainlen_eq_zero s (i + 1) 0 h]
        omega
    | j + 1 =>
      by_cases h : posOk s (i + 1) (j + 1)
      · have hd : posOk s (j + 1) (j + 1) := posOk_diag_right s (i + 1) (j + 1) h
        rw [chainlen_succ_succ s i j h, chainlen_succ_succ s j j hd]
        have := ih j
        omega
      · rw [chainlen_eq_zero s (i + 1) (j + 1) h]
        omega

theorem chainlen_diag_le_Dmax (s : List Nat) (j m : Nat) (h : j < m) :
    chainlen s j j ≤ Dmax s m := by
  induction m with
  | zero => omega
  | succ m ih =>
    rw [Dmax]
    rcases Nat.lt_succ_iff_lt_or_eq.mp h with h1 | h1
    · exact le_trans (ih h1) (le_max_left _ _)
    · subst h1
      exact le_max_right _ _

theorem mem_b2jGet_iff (s : List Nat) (i j : Nat) :
    j ∈ b2jGet s (s.getD i 0) ↔ posOk s i j := by
  rw [b2jGet]
  split
  · rename_i hpop
    simp only [List.not_mem_nil, false_iff]
    intro hp
    rw [hp.2.2] at hpop
    exact Bool.noConfusion hpop
  · rename_i hpop
    rw [List.mem_filter, List.mem_range]
    constructor
    · rintro ⟨h1, h2⟩
      refine ⟨h1, ?_, ?_⟩
      · exact of_decide_eq_true h2
      · cases hb : bpopular s (s.getD i 0)
        · rfl
        · exact absurd hb hpop
    · rintro ⟨h1, h2, h3⟩
      exact ⟨h1, decide_eq_true h2⟩

theorem filter_range_split (p : Nat → Bool) (n i : Nat) (hi : i < n) (hp : p i = true) :
    (List.range n).filter p =
      (List.range i).filter p ++ i :: (List.range' (i + 1) (n - (i + 1))).filter p := by
  have h1 : List.range n = List.range i ++ List.range' i (n - i) := by
    rw [List.range_eq_range', List.range_eq_range']
    have := List.range'_append 0 i (n - i) 1
    simp only [Nat.zero_add, Nat.one_mul] at this
    rw [this]
    congr 1
    omega
  have h2 : List.range' i (n - i) = i :: List.range' (i + 1) (n - (i + 1)) := by
    have hni : n - i = (n - (i + 1)) + 1 := by omega
    rw [hni, List.range'_succ]
  rw [h1, h2, List.filter_append, List.filter_cons, hp]
  rfl

theorem flmInner_append (i : Nat) (j2len : Nat → Nat) (bhi : Nat) (L1 L2 : List Nat)
    (m0 : Nat → Nat) (best : Nat × Nat × Nat) (hL1 : ∀ j ∈ L1, j < bhi) :
    flmInner i j2len 0 bhi (L1 ++ L2) m0 best =
      flmInner i j2len 0 bhi L2 (flmInner i j2len 0 bhi L1 m0 best).1
        (flmInner i j2len 0 bhi L1 m0 best).2 := by
  induction L1 generalizing m0 best with
  | nil => rfl
  | cons j L1' ih =>
    have hj : ¬ (bhi ≤ j) := by
      have := hL1 j (by simp)
      omega
    simp only [List.cons_append, flmInner, if_neg (Nat.not_lt_zero j), if_neg hj]
    exact ih _ _ (fun x hx => hL1 x (by simp [hx]))

theorem flmInner_map (i : Nat) (j2len : Nat → Nat) (bhi : Nat) (L : List Nat)
    (m0 : Nat → Nat) (best : Nat × Nat × Nat) (hL : ∀ j ∈ L, j < bhi) (j' : Nat) :
    (flmInner i j2len 0 bhi L m0 best).1 j' =
      if j' ∈ L then (if j' = 0 then 0 else j2len (j' - 1)) + 1 else m0 j' := by
  induction L generalizing m0 best with
  | nil => simp [flmInner]
  | cons j L' ih =>
    have hj : ¬ (bhi ≤ j) := by
      have := hL j (by simp)
      omega
    simp only [flmInner, if_neg (Nat.not_lt_zero j), if_neg hj]
    rw [ih _ _ (fun x hx => hL x (List.mem_cons_of_mem j hx))]
    by_cases hmem : j' ∈ L'
    · rw [if_pos hmem, if_pos (List.mem_cons_of_mem j hmem)]
    · rw [if_neg hmem]
      by_cases hj' : j' = j
      · subst hj'
        rw [if_pos (List.mem_cons_self j' L')]
        simp
      · have hnm : j' ∉ j :: L' := by
          intro hc
          rcases List.mem_cons.mp hc with h | h
          · exact hj' h
          · exact hmem h
        rw [if_neg hnm]
        simp [hj']

theorem flmInner_best_const (i : Nat) (j2len : Nat → Nat) (bhi : Nat) (L : List Nat)
    (m0 : Nat → Nat) (best : Nat × Nat × Nat)
    (hL : ∀ j ∈ L, j < bhi ∧ (if j = 0 then 0 else j2len (j - 1)) + 1 ≤ best.2.2) :
    (flmInner i j2len 0 bhi L m0 best).2 = best := by
  induction L generalizing m0 with
  | nil => rfl
  | cons j L' ih =>
    obtain ⟨hj, hk⟩ := hL j (List.mem_cons_self j L')
    have hnb : ¬ (bhi ≤ j) := by omega
    have hnup : ¬ (best.2.2 < (if j = 0 then 0 else j2len (j - 1)) + 1) := by omega
    simp only [flmInner, if_neg (Nat.not_lt_zero j), if_neg hnb, if_neg hnup]
    exact ih _ (fun x hx => hL x (List.mem_cons_of_mem j hx))

theorem kf_eq_chainlen (s : List Nat) (i j : Nat) (h : posOk s i j) :
    (if j = 0 then 0 else chainMapBefore s i (j - 1)) + 1 = chainlen s i j := by
  match i, j with
  | 0, j =>
    have e1 : chainlen s 0 j = 1 := by rw [chainlen, if_pos h]
    rw [e1]
    split <;> rfl
  | i + 1, 0 =>
    have e1 : chainlen s (i + 1) 0 = 1 := by rw [chainlen, if_pos h]
    rw [e1]
    simp
  | i + 1, j + 1 =>
    rw [chainlen_succ_succ s i j h, if_neg (Nat.succ_ne_zero j)]
    rfl

theorem flmInner_step (s : List Nat) (i : Nat) (hi : i < s.length) (d : Nat)
    (hd : d + Dmax s i ≤ i) :
    ((flmInner i (chainMapBefore s i) 0 s.length (b2jGet s (s.getD i 0)) (fun _ => 0)
        (d, d, Dmax s i)).2 =
      if Dmax s i < chainlen s i i then
        (i + 1 - chainlen s i i, i + 1 - chainlen s i i, chainlen s i i)
      else (d, d, Dmax s i)) ∧
    (∀ j', (flmInner i (chainMapBefore s i) 0 s.length (b2jGet s (s.getD i 0)) (fun _ => 0)
        (d, d, Dmax s i)).1 j' = chainlen s i j') := by
  have hb2j : ∀ j ∈ b2jGet s (s.getD i 0), j < s.length := by
    intro j hj
    exact ((mem_b2jGet_iff s i j).mp hj).1
  constructor
  · cases hpop : bpopular s (s.getD i 0) with
    | true =>
      have hempty : b2jGet s (s.getD i 0) = [] := by
        rw [b2jGet, if_pos hpop]
      rw [hempty]
      have hcc : chainlen s i i = 0 := by
        apply chainlen_eq_zero
        intro hp
        rw [hp.2.2] at hpop
        exact Bool.noConfusion hpop
      rw [hcc, if_neg (by omega)]
      rfl
    | false =>
      have hp : (fun j => s.getD j 0 == s.getD i 0) i = true := by simp
      have hsplit : b2jGet s (s.getD i 0) =
          ((List.range i).filter (fun j => s.getD j 0 == s.getD i 0)) ++ i ::
            ((List.range' (i + 1) (s.length - (i + 1))).filter
              (fun j => s.getD j 0 == s.getD i 0)) := by
        rw [b2jGet, if_neg (by simpa using hpop)]
        exact filter_range_split _ s.length i hi hp
      rw [hsplit]
      -- the pre-diagonal part never updates the best
      have hpre : ∀ j ∈ (List.range i).filter (fun j => s.getD j 0 == s.getD i 0),
          j < s.length ∧
          (if j = 0 then 0 else chainMapBefore s i (j - 1)) + 1 ≤
            (d, d, Dmax s i).2.2 := by
        intro j hj
        rw [List.mem_filter, List.mem_range] at hj
        have hpos : posOk s i j := by
          refine ⟨by omega, of_decide_eq_true hj.2, hpop⟩
        refine ⟨by omega, ?_⟩
        rw [kf_eq_chainlen s i j hpos]
        calc chainlen s i j ≤ chainlen s j j := chainlen_le_diag_right s i j
          _ ≤ Dmax s i := chainlen_diag_le_Dmax s j i hj.1
      rw [flmInner_append i _ s.length _ _ _ _
        (fun j hj => ((List.mem_filter.mp hj).1 |> List.mem_range.mp) |>.trans hi)]
      rw [flmInner_best_const i _ s.length _ _ _ hpre]
      -- the diagonal step
      have hdiagpos : posOk s i i := ⟨hi, rfl, hpop⟩
      have hkdiag : (if i = 0 then 0 else chainMapBefore s i (i - 1)) + 1 = chainlen s i i :=
        kf_eq_chainlen s i i hdiagpos
      rw [flmInner]
      rw [if_neg (Nat.not_lt_zero i), if_neg (by omega)]
      simp only [hkdiag]
      -- the post-diagonal part never updates the best either
      by_cases hlt : Dmax s i < chainlen s i i
      · rw [if_pos hlt]
        rw [flmInner_best_const]
        intro j hj
        rw [List.mem_filter, List.mem_range'_1] at hj
        have hpos : posOk s i j := ⟨by omega, of_decide_eq_true hj.2, hpop⟩
        refine ⟨by omega, ?_⟩
        rw [kf_eq_chainlen s i j hpos]
        exact chainlen_le_diag_left s i j hi
      · rw [if_neg hlt]
        rw [flmInner_best_const]
        intro j hj
        rw [List.mem_filter, List.mem_range'_1] at hj
        have hpos : posOk s i j := ⟨by omega, of_decide_eq_true hj.2, hpop⟩
        refine ⟨by omega, ?_⟩
        rw [kf_eq_chainlen s i j hpos]
        calc chainlen s i j ≤ chainlen s i i := chainlen_le_diag_left s i j hi
          _ ≤ Dmax s i := by omega
  · intro j'
    rw [flmInner_map i _ s.length _ _ _ hb2j j']
    by_cases hmem : j' ∈ b2jGet s (s.getD i 0)
    · rw [if_pos hmem]
      exact kf_eq_chainlen s i j' ((mem_b2jGet_iff s i j').mp hmem)
    · rw [if_neg hmem]
      rw [chainlen_eq_zero s i j' (fun hp => hmem ((mem_b2jGet_iff s i j').mpr hp))]

theorem flmOuter_diag (s : List Nat) (cnt : Nat) :
    ∀ (m d : Nat), m + cnt = s.length → d + Dmax s m ≤ m →
    ∃ d', flmOuter s s 0 s.length (List.range' m cnt) (chainMapBefore s m)
        (d, d, Dmax s m) = (d', d', Dmax s s.length) ∧
      d' + Dmax s s.length ≤ s.length := by
  induction cnt with
  | zero =>
    intro m d hm hd
    have hmn : m = s.length := by omega
    subst hmn
    exact ⟨d, rfl, by omega⟩
  | succ cnt ih =>
    intro m d hm hd
    have hms : m < s.length := by omega
    rw [List.range'_succ, flmOuter]
    obtain ⟨hbest, hmap⟩ := flmInner_step s m hms d hd
    have hmapeq : (flmInner m (chainMapBefore s m) 0 s.length (b2jGet s (s.getD m 0))
        (fun _ => 0) (d, d, Dmax s m)).1 = chainMapBefore s (m + 1) := by
      funext j'
      rw [hmap j']
      rfl
    rw [hmapeq, hbest]
    by_cases hlt : Dmax s m < chainlen s m m
    · rw [if_pos hlt]
      have hDm : Dmax s (m + 1) = chainlen s m m := by
        rw [Dmax, Nat.max_eq_right (Nat.le_of_lt hlt)]
      have hk1 : chainlen s m m ≤ m + 1 := chainlen_le_succ s m m
      obtain ⟨d', h1, h2⟩ := ih (m + 1) (m + 1 - chainlen s m m) (by omega)
        (by rw [hDm]; omega)
      rw [show ((m + 1 - chainlen s m m, m + 1 - chainlen s m m, chainlen s m m) :
          Nat × Nat × Nat) =
          (m + 1 - chainlen s m m, m + 1 - chainlen s m m, Dmax s (m + 1)) from by
        rw [hDm]]
      exact ⟨d', h1, h2⟩
    · rw [if_neg hlt]
      have hDm : Dmax s (m + 1) = Dmax s m := by
        rw [Dmax, Nat.max_eq_left (Nat.not_lt.mp hlt)]
      obtain ⟨d', h1, h2⟩ := ih (m + 1) d (by omega) (by rw [hDm]; omega)
      rw [show ((d, d, Dmax s m) : Nat × Nat × Nat) = (d, d, Dmax s (m + 1)) from by
        rw [hDm]]
      exact ⟨d', h1, h2⟩

theorem extendLower_diag (s : List Nat) (d : Nat) :
    ∀ (k : Nat), extendLower s s 0 0 (d, d, k) = (0, 0, k + d) := by
  induction d with
  | zero =>
    intro k
    rw [extendLower, dif_neg (fun h => absurd h.1 (by omega))]
    rw [Nat.add_zero]
  | succ d ih =>
    intro k
    rw [extendLower, dif_pos ⟨by omega, by omega, rfl⟩]
    have e1 : d + 1 - 1 = d := by omega
    rw [e1, ih (k + 1)]
    have e2 : k + 1 + d = k + (d + 1) := by omega
    rw [e2]

theorem extendUpper_diag (s : List Nat) :
    ∀ (fuel t : Nat), t ≤ s.length → s.length - t = fuel →
    extendUpper s s s.length s.length (0, 0, t) = (0, 0, s.length) := by
  intro fuel
  induction fuel with
  | zero =>
    intro t ht hf
    have : t = s.length := by omega
    subst this
    rw [extendUpper, dif_neg (fun h => absurd h.1 (by omega))]
  | succ fuel ih =>
    intro t ht hf
    rw [extendUpper, dif_pos ⟨by omega, by omega, rfl⟩]
    exact ih (t + 1) (by omega) (by omega)

theorem find_longest_match_self (s : List Nat) :
    find_longest_match s s 0 s.length 0 s.length = (0, 0, s.length) := by
  rw [find_longest_match]
  obtain ⟨d', h1, h2⟩ := flmOuter_diag s s.length 0 0 (by omega) (by simp [Dmax])
  have e1 : List.range' 0 (s.length - 0) = List.range' 0 s.length := by
    rw [Nat.sub_zero]
  have e2 : (fun _ : Nat => 0) = chainMapBefore s 0 := rfl
  have e3 : ((0, 0, 0) : Nat × Nat × Nat) = (0, 0, Dmax s 0) := rfl
  rw [e1, e2, e3, h1, extendLower_diag s d' (Dmax s s.length)]
  exact extendUpper_diag s (s.length - (Dmax s s.length + d')) (Dmax s s.length + d')
    (by omega) rfl

theorem get_matching_blocks_self (s : List Nat) :
    get_matching_blocks s s =
      if s.length = 0 then [(0, 0, 0)]
      else [(0, 0, s.length), (s.length, s.length, 0)] := by
  rw [get_matching_blocks]
  obtain ⟨f, hf⟩ : ∃ f, (s.length + s.length + 1) * (s.length + s.length + 1) = f + 1 := by
    have hpos : 0 < (s.length + s.length + 1) * (s.length + s.length + 1) :=
      Nat.mul_pos (by omega) (by omega)
    exact ⟨(s.length + s.length + 1) * (s.length + s.length + 1) - 1, by omega⟩
  rw [hf]
  by_cases hn : s.length = 0
  · rw [if_pos hn]
    have hflm : find_longest_match s s 0 0 0 0 = (0, 0, 0) := by
      have h := find_longest_match_self s
      rwa [hn] at h
    simp [hn, gmbLoop, hflm, collapseBlocks, List.insertionSort]
  · rw [if_neg hn]
    simp only [gmbLoop, find_longest_match_self s, ne_eq, hn, not_false_eq_true, if_true]
    simp only [Nat.lt_irrefl, Nat.zero_add, Nat.add_zero, and_self, and_false, false_and,
      if_false, List.nil_append]
    have hloop : gmbLoop s s f [] [(0, 0, s.length)] = [(0, 0, s.length)] := by
      cases f <;> rfl
    rw [hloop]
    have hsort : List.insertionSort blockLE [((0 : Nat), (0 : Nat), s.length)] =
        [(0, 0, s.length)] := rfl
    rw [hsort, collapseBlocks, if_pos ⟨rfl, rfl⟩, collapseBlocks, if_pos (by omega)]
    rw [Nat.zero_add]
    rfl

theorem get_opcodes_self (s : List Nat) :
    get_opcodes s s =
      if s.length = 0 then [] else [(Tag.equal, 0, s.length, 0, s.length)] := by
  rw [get_opcodes, get_matching_blocks_self]
  by_cases hn : s.length = 0
  · rw [if_pos hn, if_pos hn]
    simp [opcodesLoop]
  · rw [if_neg hn, if_neg hn]
    simp [opcodesLoop, hn]

/-- C4: comparing a text with itself yields an empty list of difference
operations and similarity ratio 1. -/
theorem c4_compare_self (S : Text) :
    identify_differences S S = [] ∧ calculate_similarity S S = 1 := by
  constructor
  · rw [identify_differences, get_opcodes_self]
    by_cases hn : S.length = 0
    · rw [if_pos hn]
      rfl
    · rw [if_neg hn]
      simp
  · rw [calculate_similarity, ratioQ, get_matching_blocks_self]
    by_cases hn : S.length = 0
    · rw [if_pos hn, if_neg (by omega)]
    · rw [if_neg hn, if_pos (by omega)]
      have hQ : (S.length : ℚ) ≠ 0 := Nat.cast_ne_zero.mpr hn
      simp only [List.map_cons, List.map_nil, List.sum_cons, List.sum_nil]
      push_cast
      field_simp
      ring

end LegalDoc
